import Mathlib

/-!
Shallow embedding of the Driftwarden diff & merge engine: the schema diff
calculator, the data diff / merge planner, the transactional change executor,
and the retry/backoff resilience layer, together with theorems settling the
frozen specification claims.

JavaScript rows are modelled as ordered association lists of column name to a
closed scalar variant; machine numbers that matter to the claims are integers
or rationals; the database handles are modelled by their observable behaviour
(table contents for reads, a call trace plus a failure oracle for writes).
-/

namespace Driftwarden

/-- Scalar cell values of a row object: SQL NULL (or JS null/undefined stored
in a column), strings, integers, Date objects (carried by their ISO-8601
rendering), and structured objects (carried by their JSON.stringify
rendering). -/
inductive Value where
  | vNull
  | vStr (s : String)
  | vInt (n : Int)
  | vDate (iso : String)
  | vJson (j : String)
deriving DecidableEq, Repr

/-- Row objects: association lists from column name to value, in JS property
insertion order.  A column name absent from the list models a JS `undefined`
property access. -/
abbrev Row : Type := List (String × Value)

/-- Property access `row[col]`: `none` models JS `undefined`. -/
def rowGet (r : Row) (c : String) : Option Value :=
  (r.find? (fun p => p.1 == c)).map (·.2)

/-- JS `Object.keys(row)`: property names in insertion order. -/
def rowKeys (r : Row) : List String := r.map (·.1)

/-- JS `String(v)` on a defined value.  A Date is rendered by its carried
string and a structured object by the JS tag `[object Object]`. -/
def valueToString : Value → String
  | .vNull => "null"
  | .vStr s => s
  | .vInt n => toString n
  | .vDate iso => iso
  | .vJson _ => "[object Object]"

/-- JS `String(row[col])`, where an absent column reads `undefined`. -/
def optValueToString : Option Value → String
  | none => "undefined"
  | some v => valueToString v

/-! ## Generic association-list model of a JS `Map` (string keys) -/

/-- JS `Map.prototype.set`: overwrite in place when the key exists (keeping
its original insertion position), else append. -/
def alistSet {α : Type} (m : List (String × α)) (k : String) (v : α) :
    List (String × α) :=
  if m.any (fun p => p.1 == k) then
    m.map (fun p => if p.1 == k then (k, v) else p)
  else m ++ [(k, v)]

/-- JS `Map.prototype.get` (`none` models `undefined`). -/
def alistGet? {α : Type} (m : List (String × α)) (k : String) : Option α :=
  (m.find? (fun p => p.1 == k)).map (·.2)

/-- JS `Map.prototype.has`. -/
def alistHas {α : Type} (m : List (String × α)) (k : String) : Bool :=
  m.any (fun p => p.1 == k)

/-- JS `new Map(pairs)`: repeated `set` over the pair list. -/
def alistOfPairs {α : Type} (ps : List (String × α)) : List (String × α) :=
  ps.foldl (fun m p => alistSet m p.1 p.2) []

/-! ## Schema Diff Calculator (src/schema-diff: diffTableSchema,
generateSchemaSQL) -/

/-- One column descriptor as returned by SHOW COLUMNS; JS field names are
`Field`, `Type`, `Null`, `Default`, `Extra`. -/
structure ColumnInfo where
  field : String
  colType : String
  null : String
  defaultVal : Option String
  extra : String
deriving DecidableEq, Repr

/-- One index row as returned by SHOW INDEX; JS field names are `Key_name`,
`Column_name`, `Non_unique`. -/
structure IndexRow where
  keyName : String
  columnName : String
  nonUnique : Nat
deriving DecidableEq, Repr

/-- Table structure snapshot from introspection. -/
structure TableSchema where
  name : String
  columns : List ColumnInfo
  indexes : List IndexRow
  primaryKey : List String
  createStatement : String
deriving DecidableEq, Repr

/-- Entry of `columnsToAdd`. -/
structure AddColumn where
  name : String
  type : String
  nullable : Bool
  defaultVal : Option String
  extra : String
  definition : String
deriving DecidableEq, Repr

/-- Entry of `columnsToModify`; JS fields `from` and `to` are rendered
`fromDef` and `toDef`. -/
structure ModifyColumn where
  name : String
  fromDef : String
  toDef : String
  remoteCol : ColumnInfo
  localCol : ColumnInfo
deriving DecidableEq, Repr

/-- Grouped index (entry of `indexesToAdd` and of the groupIndexes map). -/
structure IndexGroup where
  name : String
  columns : List String
  unique : Bool
deriving DecidableEq, Repr

/-- Result of diffTableSchema.  The JS entries of `columnsToRemove` and
`indexesToRemove` are singleton records `{name}`; they are carried here as the
name itself. -/
structure SchemaDiff where
  tableName : String
  hasChanges : Bool := false
  createTable : Bool := false
  columnsToAdd : List AddColumn := []
  columnsToModify : List ModifyColumn := []
  columnsToRemove : List String := []
  indexesToAdd : List IndexGroup := []
  indexesToRemove : List String := []
  createStatement : Option String := none
  sql : List String := []
deriving DecidableEq, Repr

/-- Column definition string for ALTER TABLE (buildColumnDefinition). -/
def buildColumnDefinition (col : ColumnInfo) : String :=
  let d := col.colType
  let d := if col.null == "NO" then d ++ " NOT NULL" else d ++ " NULL"
  let d :=
    match col.defaultVal with
    | some dv =>
        if dv == "CURRENT_TIMESTAMP" then d ++ " DEFAULT " ++ dv
        else d ++ " DEFAULT '" ++ dv ++ "'"
    | none => if col.null == "YES" then d ++ " DEFAULT NULL" else d
  if col.extra != "" then d ++ " " ++ col.extra else d

/-- Structural column equality (columnsEqual): type, nullability, default and
extra attribute must all agree. -/
def columnsEqual (c1 c2 : ColumnInfo) : Bool :=
  c1.colType == c2.colType && c1.null == c2.null &&
  c1.defaultVal == c2.defaultVal && c1.extra == c2.extra

/-- Group SHOW INDEX rows by index name (groupIndexes): uniqueness comes from
the first row of the group, columns accumulate in row order. -/
def groupIndexes (rows : List IndexRow) : List (String × IndexGroup) :=
  rows.foldl
    (fun m row =>
      match alistGet? m row.keyName with
      | none =>
          m ++ [(row.keyName,
                 { name := row.keyName, columns := [row.columnName],
                   unique := row.nonUnique == 0 })]
      | some g =>
          alistSet m row.keyName { g with columns := g.columns ++ [row.columnName] })
    []

/-- diffTableSchema.  A missing (null) remote schema makes the JS code read
`remoteSchema.name` and throw a TypeError, modelled as the error branch; a
missing local schema yields the createTable diff carrying the verbatim remote
creation statement. -/
def diffTableSchema (remoteSchema : Option TableSchema)
    (localSchema : Option TableSchema) : Except String SchemaDiff :=
  match remoteSchema with
  | none => .error "TypeError: Cannot read properties of null (reading 'name')"
  | some rs =>
    match localSchema with
    | none =>
        .ok { tableName := rs.name, hasChanges := true, createTable := true,
              createStatement := some rs.createStatement }
    | some ls =>
        let remoteColumns := alistOfPairs (rs.columns.map (fun c => (c.field, c)))
        let localColumns := alistOfPairs (ls.columns.map (fun c => (c.field, c)))
        let columnsToAdd := remoteColumns.filterMap (fun p =>
          if !alistHas localColumns p.1 then
            some { name := p.1, type := p.2.colType,
                   nullable := p.2.null == "YES", defaultVal := p.2.defaultVal,
                   extra := p.2.extra, definition := buildColumnDefinition p.2 }
          else none)
        let columnsToRemove := localColumns.filterMap (fun p =>
          if !alistHas remoteColumns p.1 then some p.1 else none)
        let columnsToModify := remoteColumns.filterMap (fun p =>
          match alistGet? localColumns p.1 with
          | some lc =>
              if !columnsEqual p.2 lc then
                some { name := p.1, fromDef := buildColumnDefinition lc,
                       toDef := buildColumnDefinition p.2,
                       remoteCol := p.2, localCol := lc }
              else none
          | none => none)
        let remoteIndexes := groupIndexes rs.indexes
        let localIndexes := groupIndexes ls.indexes
        let indexesToAdd := remoteIndexes.filterMap (fun p =>
          if p.1 == "PRIMARY" then none
          else if !alistHas localIndexes p.1 then
            some { name := p.1, columns := p.2.columns, unique := p.2.unique }
          else none)
        let indexesToRemove := localIndexes.filterMap (fun p =>
          if p.1 == "PRIMARY" then none
          else if !alistHas remoteIndexes p.1 then some p.1 else none)
        .ok { tableName := rs.name,
              hasChanges :=
                !(columnsToAdd.isEmpty && columnsToRemove.isEmpty &&
                  columnsToModify.isEmpty && indexesToAdd.isEmpty &&
                  indexesToRemove.isEmpty),
              createTable := false,
              columnsToAdd := columnsToAdd,
              columnsToModify := columnsToModify,
              columnsToRemove := columnsToRemove,
              indexesToAdd := indexesToAdd,
              indexesToRemove := indexesToRemove }

/-- generateSchemaSQL: the emitted statement list, in the source's fixed
order CREATE, ADD COLUMN, MODIFY COLUMN, DROP COLUMN, ADD INDEX, DROP INDEX.
In the createTable branch the JS code pushes `diff.createStatement`; pushing
an absent one would push `undefined`, rendered here by its string form. -/
def generateSchemaSQL (diff : SchemaDiff) : List String :=
  if diff.createTable then [diff.createStatement.getD "undefined"]
  else
    diff.columnsToAdd.map (fun col =>
      "ALTER TABLE `" ++ diff.tableName ++ "` ADD COLUMN `" ++ col.name ++
        "` " ++ col.definition)
    ++ diff.columnsToModify.map (fun col =>
      "ALTER TABLE `" ++ diff.tableName ++ "` MODIFY COLUMN `" ++ col.name ++
        "` " ++ col.toDef)
    ++ diff.columnsToRemove.map (fun name =>
      "ALTER TABLE `" ++ diff.tableName ++ "` DROP COLUMN `" ++ name ++ "`")
    ++ diff.indexesToAdd.map (fun idx =>
      "ALTER TABLE `" ++ diff.tableName ++ "` ADD " ++
        (if idx.unique then "UNIQUE INDEX" else "INDEX") ++ " `" ++ idx.name ++
        "` (" ++ String.intercalate ", " (idx.columns.map (fun c => "`" ++ c ++ "`")) ++ ")")
    ++ diff.indexesToRemove.map (fun name =>
      "ALTER TABLE `" ++ diff.tableName ++ "` DROP INDEX `" ++ name ++ "`")

/-! ## Data Diff / Merge Planner (src/diff/data-diff.js) -/

/-- Value normalisation for comparison (normalizeValue): null/undefined map
to null (`none`), Dates to their ISO-8601 text, structured values to their
JSON text, everything else to its string form. -/
def normalizeValue : Option Value → Option String
  | none => none
  | some .vNull => none
  | some (.vDate iso) => some iso
  | some (.vJson j) => some j
  | some (.vStr s) => some s
  | some (.vInt n) => some (toString n)

/-- Lexicographic code-unit comparison of two character lists, the JS
default string ordering. -/
def charsLe : List Char → List Char → Bool
  | [], _ => true
  | _ :: _, [] => false
  | c :: cs, d :: ds =>
      if c.val.toNat < d.val.toNat then true
      else if d.val.toNat < c.val.toNat then false
      else charsLe cs ds

/-- Lexicographic comparison of two strings by code units. -/
def strLe (a b : String) : Bool := charsLe a.data b.data

/-- Insertion of a string into a sorted list, the helper for the JS
`Array.prototype.sort()` model. -/
def insertSorted (s : String) : List String → List String
  | [] => [s]
  | x :: xs => if strLe s x then s :: x :: xs else x :: insertSorted s xs

/-- JS `keys.sort()`: lexicographic sort of the column-name list. -/
def sortStrings (l : List String) : List String := l.foldr insertSorted []

/-- Row equality (rowsEqual): sorted column-name sets of equal length, and
value-normalised equality at every column; any single mismatch is unequal. -/
def rowsEqual (row1 row2 : Row) : Bool :=
  let keys1 := sortStrings (rowKeys row1)
  let keys2 := sortStrings (rowKeys row2)
  keys1.length == keys2.length &&
    (keys1.zip keys2).all (fun p =>
      p.1 == p.2 &&
      normalizeValue (rowGet row1 p.1) == normalizeValue (rowGet row2 p.2))

/-- One entry of an update's per-column change list (getRowChanges); the JS
fields `from` and `to` are rendered `fromVal` and `toVal`. -/
structure RowChange where
  column : String
  fromVal : Option Value
  toVal : Option Value
deriving DecidableEq, Repr

/-- Changed-column list between the local and the remote version of a row
(getRowChanges): iterate the remote row's keys and keep normalised
mismatches. -/
def getRowChanges (localRow remoteRow : Row) : List RowChange :=
  (rowKeys remoteRow).filterMap (fun key =>
    if normalizeValue (rowGet localRow key) != normalizeValue (rowGet remoteRow key) then
      some { column := key, fromVal := rowGet localRow key,
             toVal := rowGet remoteRow key }
    else none)

/-- Primary-key identity string (buildPrimaryKeyValue): the `String(...)`
forms of the key-column values joined with the `|` delimiter, unescaped. -/
def buildPrimaryKeyValue (row : Row) (primaryKey : List String) : String :=
  String.intercalate "|" (primaryKey.map (fun col => optValueToString (rowGet row col)))

/-- Entry of `toUpdate`: the remote and local versions of a matched row and
its changed columns; the JS field `local` is rendered `localRow`. -/
structure UpdateEntry where
  remote : Row
  localRow : Row
  changes : List RowChange
deriving DecidableEq, Repr

/-- Summary statistics of a data diff. -/
structure DiffStats where
  remoteRows : Nat := 0
  localRows : Nat := 0
  inserts : Nat := 0
  updates : Nat := 0
  deletes : Nat := 0
  scannedRows : Nat := 0
deriving DecidableEq, Repr

/-- Result of the data diff planner.  Fields a given strategy leaves absent
in JS keep their listed defaults. -/
structure DataDiff where
  tableName : String
  primaryKey : List String := []
  hasTimestamps : Bool := false
  fullReplace : Bool := false
  incremental : Bool := false
  timestampColumn : Option String := none
  localMaxTimestamp : Option String := none
  remoteData : List Row := []
  toInsert : List Row := []
  toUpdate : List UpdateEntry := []
  toDelete : List Row := []
  stats : DiffStats := {}
deriving DecidableEq, Repr

/-- SQL three-valued equality on two cell values, as used by the generated
`WHERE col = ?` / `IN (...)` lookups: NULLs never compare equal. -/
def sqlEq (a b : Option Value) : Bool :=
  match a, b with
  | some x, some y => !(x == Value.vNull) && !(y == Value.vNull) && x == y
  | _, _ => false

/-- Batch lookup of local rows matching a remote chunk's primary keys
(batchLookupByPK): an IN-list on the key column for single-column keys, an
OR of per-column conjunctions for composite keys.  The local table stands in
for the SELECT result, filtered in stored order. -/
def batchLookupByPK (localTable : List Row) (pk : List String)
    (remoteRows : List Row) : List Row :=
  if remoteRows.isEmpty then []
  else if pk.length == 1 then
    let pkCol := pk.headD ""
    let pkValues := remoteRows.map (fun row => rowGet row pkCol)
    localTable.filter (fun l => pkValues.any (fun v => sqlEq (rowGet l pkCol) v))
  else
    localTable.filter (fun l =>
      remoteRows.any (fun r => pk.all (fun c => sqlEq (rowGet l c) (rowGet r c))))

/-- JS `Set.prototype.add` on a set represented as a duplicate-free list in
insertion order. -/
def setAdd (s : List String) (k : String) : List String :=
  if s.contains k then s else s ++ [k]

/-- Accumulator of the remote-chunk phase of streamingTableDiff: the
remote-keys-seen set, the insert and update lists, and the running stats. -/
structure StreamState where
  seen : List String := []
  toInsert : List Row := []
  toUpdate : List UpdateEntry := []
  inserts : Nat := 0
  updates : Nat := 0
  remoteRows : Nat := 0
deriving DecidableEq, Repr

/-- Per-remote-row body of the streaming chunk loop: record the key as seen,
count the row when no upfront count was available, then classify against the
chunk's local index as insert, update, or unchanged. -/
def processRemoteRow (pk : List String) (localIndex : List (String × Row))
    (st : StreamState) (remoteRow : Row) : StreamState :=
  let key := buildPrimaryKeyValue remoteRow pk
  let st := { st with seen := setAdd st.seen key,
                      remoteRows := if st.remoteRows == 0 then st.remoteRows + 1
                                    else st.remoteRows }
  match alistGet? localIndex key with
  | none =>
      { st with toInsert := st.toInsert ++ [remoteRow], inserts := st.inserts + 1 }
  | some localRow =>
      if rowsEqual remoteRow localRow then st
      else
        { st with
            toUpdate := st.toUpdate ++
              [{ remote := remoteRow, localRow := localRow,
                 changes := getRowChanges localRow remoteRow }],
            updates := st.updates + 1 }

/-- One iteration of the streaming chunk loop: batch-lookup the chunk's local
rows, index them by primary-key string, then process each remote row. -/
def processChunk (localTable : List Row) (pk : List String)
    (st : StreamState) (remoteChunk : List Row) : StreamState :=
  let localRows := batchLookupByPK localTable pk remoteChunk
  let localIndex := localRows.foldl
    (fun m row => alistSet m (buildPrimaryKeyValue row pk) row) []
  remoteChunk.foldl (processRemoteRow pk localIndex) st

/-- Paged scan of the local table (the limit/offset loop shared by the
delete scan of streamingTableDiff and the index build of inMemoryTableDiff):
fetch chunks until a short chunk ends the loop.  The fuel argument bounds the
iteration count — any fuel of at least `rows.length + 1` is enough when
`chunkSize > 0`; the JS loop does not terminate when `chunkSize = 0`, and no
theorem below concerns that case. -/
def pagedVisitFuel (chunkSize : Nat) : Nat → List Row → List Row
  | 0, _ => []
  | fuel + 1, rows =>
      let chunk := rows.take chunkSize
      if chunk.length == chunkSize && chunkSize != 0 then
        chunk ++ pagedVisitFuel chunkSize fuel (rows.drop chunkSize)
      else chunk

/-- Paged scan with its canonical fuel. -/
def pagedVisit (chunkSize : Nat) (rows : List Row) : List Row :=
  pagedVisitFuel chunkSize (rows.length + 1) rows

/-- streamingTableDiff.  The remote handle appears as its chunk sequence and
optional row count (`none` when getRowCount is absent); the local handle as
its table contents, which back COUNT(*), the batch lookups and the paged
delete scan. -/
def streamingTableDiff (tableName : String) (localTable : List Row)
    (pk : List String) (hasUpdatedAt hasCreatedAt : Bool)
    (chunks : List (List Row)) (rowCount : Option Nat) (chunkSize : Nat) :
    DataDiff :=
  let remoteRows0 := rowCount.getD 0
  let localRows := localTable.length
  let st := chunks.foldl (processChunk localTable pk)
    { remoteRows := remoteRows0 }
  let remoteRowsFinal := if st.remoteRows == 0 then st.seen.length else st.remoteRows
  let toDelete := (pagedVisit chunkSize localTable).filter
    (fun localRow => !st.seen.contains (buildPrimaryKeyValue localRow pk))
  { tableName := tableName,
    primaryKey := pk,
    hasTimestamps := hasUpdatedAt || hasCreatedAt,
    toInsert := st.toInsert,
    toUpdate := st.toUpdate,
    toDelete := toDelete,
    stats := { remoteRows := remoteRowsFinal, localRows := localRows,
               inserts := st.inserts, updates := st.updates,
               deletes := toDelete.length } }

/-- Per-remote-row body of the legacy in-memory loop: count the row, record
its key as seen, classify against the global local index. -/
def inMemoryProcessRow (pk : List String) (localIndex : List (String × Row))
    (st : StreamState) (remoteRow : Row) : StreamState :=
  let key := buildPrimaryKeyValue remoteRow pk
  let st := { st with remoteRows := st.remoteRows + 1, seen := setAdd st.seen key }
  match alistGet? localIndex key with
  | none =>
      { st with toInsert := st.toInsert ++ [remoteRow], inserts := st.inserts + 1 }
  | some localRow =>
      if rowsEqual remoteRow localRow then st
      else
        { st with
            toUpdate := st.toUpdate ++
              [{ remote := remoteRow, localRow := localRow,
                 changes := getRowChanges localRow remoteRow }],
            updates := st.updates + 1 }

/-- inMemoryTableDiff: build a whole-table local index by the paged loop,
stream the remote chunks against it, then emit as deletes the index entries
whose key was never seen in remote (in index insertion order). -/
def inMemoryTableDiff (tableName : String) (localTable : List Row)
    (pk : List String) (hasUpdatedAt hasCreatedAt : Bool)
    (chunks : List (List Row)) (chunkSize : Nat) : DataDiff :=
  let localIndex := (pagedVisit chunkSize localTable).foldl
    (fun m row => alistSet m (buildPrimaryKeyValue row pk) row) []
  let st := chunks.foldl
    (fun st chunk => chunk.foldl (inMemoryProcessRow pk localIndex) st) {}
  let toDelete := (localIndex.filter (fun p => !st.seen.contains p.1)).map (·.2)
  { tableName := tableName,
    primaryKey := pk,
    hasTimestamps := hasUpdatedAt || hasCreatedAt,
    toInsert := st.toInsert,
    toUpdate := st.toUpdate,
    toDelete := toDelete,
    stats := { remoteRows := st.remoteRows, localRows := localIndex.length,
               inserts := st.inserts, updates := st.updates,
               deletes := toDelete.length } }

/-- fullTableDiff (no primary key): stream every remote row into the carried
snapshot, count local rows, and mark the diff as a full replacement whose
insert count is the remote row count. -/
def fullTableDiff (tableName : String) (localTable : List Row)
    (chunks : List (List Row)) : DataDiff :=
  let remoteData := chunks.flatten
  let remoteRows := remoteData.length
  { tableName := tableName,
    primaryKey := [],
    hasTimestamps := false,
    fullReplace := true,
    remoteData := remoteData,
    stats := { remoteRows := remoteRows, localRows := localTable.length,
               inserts := remoteRows } }

/-- fullPrimaryKeyDiff (incremental fallback when the local table is empty):
every remote row becomes an insert; the result is tagged `incremental:
false`. -/
def fullPrimaryKeyDiff (tableName : String) (pk : List String)
    (chunks : List (List Row)) : DataDiff :=
  let toInsert := chunks.flatten
  { tableName := tableName,
    primaryKey := pk,
    hasTimestamps := true,
    incremental := false,
    toInsert := toInsert,
    stats := { remoteRows := toInsert.length, inserts := toInsert.length } }

/-- Accumulator of the incremental loop over the remote modified rows.  The
source never touches `toDelete` in this loop, mirroring its comment that
incremental sync cannot detect deletes. -/
structure IncrementalState where
  toInsert : List Row := []
  toUpdate : List UpdateEntry := []
  inserts : Nat := 0
  updates : Nat := 0
deriving DecidableEq, Repr

/-- Per-modified-row body of incrementalDiff: point-lookup the local row by
primary key (first SELECT result) and classify insert/update/unchanged. -/
def incrementalProcessRow (localTable : List Row) (pk : List String)
    (st : IncrementalState) (remoteRow : Row) : IncrementalState :=
  let localRow := (localTable.filter
    (fun l => pk.all (fun c => sqlEq (rowGet l c) (rowGet remoteRow c)))).head?
  match localRow with
  | none =>
      { st with toInsert := st.toInsert ++ [remoteRow], inserts := st.inserts + 1 }
  | some localRow =>
      if rowsEqual remoteRow localRow then st
      else
        { st with
            toUpdate := st.toUpdate ++
              [{ remote := remoteRow, localRow := localRow,
                 changes := getRowChanges localRow remoteRow }],
            updates := st.updates + 1 }

/-- incrementalDiff: read the local maximum of the timestamp column; when it
is absent fall back to fullPrimaryKeyDiff, otherwise classify only the remote
rows modified since then.  Deletes are never computed and the result is
tagged `incremental: true`.  With no modified rows the source returns before
fetching the remote row count, leaving it zero. -/
def incrementalDiff (tableName : String) (pk : List String)
    (timestampColumn : String) (localMaxTs : Option String)
    (localTable : List Row) (modifiedRows : List Row) (remoteRowCount : Nat)
    (chunks : List (List Row)) : DataDiff :=
  match localMaxTs with
  | none => fullPrimaryKeyDiff tableName pk chunks
  | some ts =>
    let base : DataDiff :=
      { tableName := tableName,
        primaryKey := pk,
        hasTimestamps := true,
        incremental := true,
        timestampColumn := some timestampColumn,
        localMaxTimestamp := some ts,
        stats := { localRows := localTable.length,
                   scannedRows := modifiedRows.length } }
    if modifiedRows.isEmpty then base
    else
      let st := modifiedRows.foldl (incrementalProcessRow localTable pk) {}
      { base with
          toInsert := st.toInsert,
          toUpdate := st.toUpdate,
          stats := { base.stats with
                       inserts := st.inserts, updates := st.updates,
                       remoteRows := remoteRowCount } }

/-- Observable behaviour of the remote reader consumed by diffTableData: the
schema's primary key, the timestamp-column probe, the chunked row stream, the
optional row count (`none` models an absent getRowCount method) and the
modified-rows query result. -/
structure RemoteModel where
  schemaPrimaryKey : List String
  hasUpdatedAt : Bool := false
  updatedAtColumn : String := "updated_at"
  hasCreatedAt : Bool := false
  chunks : List (List Row) := []
  rowCount : Option Nat := none
  modifiedRows : List Row := []
deriving Repr

/-- Observable behaviour of the local writer consumed by diffTableData. -/
structure LocalModel where
  tableExists : Bool := true
  hasUpdatedAt : Bool := false
  rows : List Row := []
  maxTimestamp : Option String := none
deriving Repr

/-- Options of diffTableData with the source defaults. -/
structure DiffOptions where
  chunkSize : Nat := 5000
  primaryKey : Option (List String) := none
  useIncremental : Bool := true
  streamingMode : Bool := true
deriving Repr

/-- diffTableData strategy selection: no primary key takes the full-replace
path; a timestamp column on both sides with incremental enabled takes the
incremental path; otherwise streaming (default) or the legacy in-memory
variant. -/
def diffTableData (tableName : String) (remote : RemoteModel)
    (localM : LocalModel) (opts : DiffOptions) : DataDiff :=
  let pk := match opts.primaryKey with
    | some p => p
    | none => remote.schemaPrimaryKey
  if pk.isEmpty then fullTableDiff tableName localM.rows remote.chunks
  else if opts.useIncremental && remote.hasUpdatedAt && localM.tableExists &&
          localM.hasUpdatedAt then
    incrementalDiff tableName pk remote.updatedAtColumn localM.maxTimestamp
      localM.rows remote.modifiedRows (remote.rowCount.getD 0) remote.chunks
  else if opts.streamingMode then
    streamingTableDiff tableName localM.rows pk remote.hasUpdatedAt
      remote.hasCreatedAt remote.chunks remote.rowCount opts.chunkSize
  else
    inMemoryTableDiff tableName localM.rows pk remote.hasUpdatedAt
      remote.hasCreatedAt remote.chunks opts.chunkSize

/-! ## Change Executor (src/executor/change-executor.js)

The local writer is modelled by its observable call trace: each statement the
executor issues is appended to the trace, and a failure oracle decides, from
the position in the trace and the call itself, whether that statement throws.
A thrown error is identified by the call that raised it. -/

/-- One statement issued against the local store. -/
inductive DBCall where
  | beginTransaction
  | insertRows (table : String) (rows : List Row)
  | updateRow (table : String) (row : Row) (pk : List String)
  | deleteRow (table : String) (keyValues : List (String × Option Value))
  | commit
  | rollback
  | executeSchema (sql : String)
  | deleteAll (table : String)
deriving DecidableEq, Repr

/-- Failure oracle of the local store: given the position in the call trace
and the call, decide whether the statement throws. -/
abbrev Oracle := Nat → DBCall → Bool

/-- Surrogate for `err.message` of a throwing statement. -/
def callErrMsg : DBCall → String
  | .beginTransaction => "begin transaction failed"
  | .insertRows t _ => "insert into " ++ t ++ " failed"
  | .updateRow t _ _ => "update of " ++ t ++ " failed"
  | .deleteRow t _ => "delete from " ++ t ++ " failed"
  | .commit => "commit failed"
  | .rollback => "rollback failed"
  | .executeSchema sql => "schema statement failed: " ++ sql
  | .deleteAll t => "delete all from " ++ t ++ " failed"

/-- Issue one statement: append it to the trace and ask the oracle whether it
succeeded. -/
def attemptCall (fails : Oracle) (trace : List DBCall) (call : DBCall) :
    List DBCall × Bool :=
  (trace ++ [call], !fails trace.length call)

/-- Per-table result record of applyDataChanges. -/
structure TableResult where
  table : String
  inserts : Nat := 0
  updates : Nat := 0
  deletes : Nat := 0
  errors : List String := []
deriving DecidableEq, Repr

/-- Progress counting of a successful statement, mirroring the increments the
source performs after each await; a full-table delete stores the driver's
affectedRows. -/
def countCall (affectedRows : Nat) (tr : TableResult) : DBCall → TableResult
  | .insertRows _ rows => { tr with inserts := tr.inserts + rows.length }
  | .updateRow _ _ _ => { tr with updates := tr.updates + 1 }
  | .deleteRow _ _ => { tr with deletes := tr.deletes + 1 }
  | .deleteAll _ => { tr with deletes := affectedRows }
  | _ => tr

/-- Run a list of statements until the first failure, threading the trace and
the per-table counters; return the failing call, if any. -/
def execCalls (fails : Oracle) (affectedRows : Nat) :
    List DBCall → List DBCall → TableResult →
    List DBCall × TableResult × Option DBCall
  | trace, [], tr => (trace, tr, none)
  | trace, call :: rest, tr =>
      let (trace1, ok) := attemptCall fails trace call
      if ok then execCalls fails affectedRows trace1 rest (countCall affectedRows tr call)
      else (trace1, tr, some call)

/-- Batch splitting of the JS loop `for (i = 0; i < rows.length; i +=
batchSize) slice(i, i + batchSize)`.  The fuel bounds the iteration count —
`rows.length + 1` is enough whenever `batchSize > 0`; the JS loop does not
terminate when `batchSize = 0` and rows remain, and no theorem below concerns
that case. -/
def batchesFuel : Nat → Nat → List Row → List (List Row)
  | 0, _, _ => []
  | fuel + 1, batchSize, rows =>
      if rows.isEmpty || batchSize == 0 then []
      else rows.take batchSize :: batchesFuel fuel batchSize (rows.drop batchSize)

/-- Batch splitting with its canonical fuel. -/
def batches (batchSize : Nat) (rows : List Row) : List (List Row) :=
  batchesFuel (rows.length + 1) batchSize rows

/-- Statement sequence of the transaction body of applyIncrementalChanges:
batched inserts, then per-row updates, then per-row deletes keyed by the
primary-key columns, then the commit (the commit sits inside the try block in
the source). -/
def incrementalCallList (diff : DataDiff) (batchSize : Nat) : List DBCall :=
  (batches batchSize diff.toInsert).map (DBCall.insertRows diff.tableName)
  ++ diff.toUpdate.map (fun u => DBCall.updateRow diff.tableName u.remote diff.primaryKey)
  ++ diff.toDelete.map (fun row =>
       DBCall.deleteRow diff.tableName (diff.primaryKey.map (fun c => (c, rowGet row c))))
  ++ [DBCall.commit]

/-- applyIncrementalChanges: begin (outside the try block), run the body, and
on a body failure attempt the rollback; when the rollback itself throws, its
error replaces the original one, exactly as the JS catch block does. -/
def applyIncrementalChanges (fails : Oracle) (trace : List DBCall)
    (diff : DataDiff) (tableResult : TableResult) (batchSize : Nat) :
    List DBCall × TableResult × Option DBCall :=
  let (trace1, ok) := attemptCall fails trace .beginTransaction
  if !ok then (trace1, tableResult, some .beginTransaction)
  else
    match execCalls fails 0 trace1 (incrementalCallList diff batchSize) tableResult with
    | (trace2, tr2, none) => (trace2, tr2, none)
    | (trace2, tr2, some err) =>
        let (trace3, okR) := attemptCall fails trace2 .rollback
        (trace3, tr2, some (if okR then err else .rollback))

/-- Statement sequence of the transaction body of applyFullReplace: a
table-wide delete, batched re-insertion of the carried snapshot with the
hard-coded batch size 1000, then the commit. -/
def fullReplaceCallList (diff : DataDiff) : List DBCall :=
  [DBCall.deleteAll diff.tableName]
  ++ (batches 1000 diff.remoteData).map (DBCall.insertRows diff.tableName)
  ++ [DBCall.commit]

/-- applyFullReplace, with the same begin / body / rollback-on-error shape as
applyIncrementalChanges. -/
def applyFullReplace (fails : Oracle) (trace : List DBCall) (diff : DataDiff)
    (tableResult : TableResult) (affectedRows : Nat) :
    List DBCall × TableResult × Option DBCall :=
  let (trace1, ok) := attemptCall fails trace .beginTransaction
  if !ok then (trace1, tableResult, some .beginTransaction)
  else
    match execCalls fails affectedRows trace1 (fullReplaceCallList diff) tableResult with
    | (trace2, tr2, none) => (trace2, tr2, none)
    | (trace2, tr2, some err) =>
        let (trace3, okR) := attemptCall fails trace2 .rollback
        (trace3, tr2, some (if okR then err else .rollback))

/-- Aggregated result of applyDataChanges. -/
structure DataResults where
  success : Bool := true
  tables : List TableResult := []
  totalInserts : Nat := 0
  totalUpdates : Nat := 0
  totalDeletes : Nat := 0
  errors : List String := []
deriving DecidableEq, Repr

/-- Loop of applyDataChanges over the approved diffs: a caught per-table
error is recorded in that table's errors and flips success; with
continueOnError false the run returns at once, otherwise the remaining
tables are still attempted through the shared push block. -/
def applyDataChangesLoop (fails : Oracle) (affectedOf : String → Nat)
    (batchSize : Nat) (continueOnError : Bool) :
    List DataDiff → List DBCall → DataResults → List DBCall × DataResults
  | [], trace, results => (trace, results)
  | diff :: rest, trace, results =>
      let tableResult : TableResult := { table := diff.tableName }
      let step :=
        if diff.fullReplace then
          applyFullReplace fails trace diff tableResult (affectedOf diff.tableName)
        else
          applyIncrementalChanges fails trace diff tableResult batchSize
      match step with
      | (trace1, tr1, some err) =>
          let tr2 := { tr1 with errors := tr1.errors ++ [callErrMsg err] }
          let results1 := { results with success := false }
          if !continueOnError then
            (trace1,
             { results1 with
                 tables := results1.tables ++ [tr2],
                 errors := results1.errors ++
                   [diff.tableName ++ ": " ++ callErrMsg err] })
          else
            applyDataChangesLoop fails affectedOf batchSize continueOnError rest trace1
              { results1 with
                  tables := results1.tables ++ [tr2],
                  totalInserts := results1.totalInserts + tr2.inserts,
                  totalUpdates := results1.totalUpdates + tr2.updates,
                  totalDeletes := results1.totalDeletes + tr2.deletes,
                  errors := results1.errors ++
                    tr2.errors.map (fun e => diff.tableName ++ ": " ++ e) }
      | (trace1, tr1, none) =>
          applyDataChangesLoop fails affectedOf batchSize continueOnError rest trace1
            { results with
                tables := results.tables ++ [tr1],
                totalInserts := results.totalInserts + tr1.inserts,
                totalUpdates := results.totalUpdates + tr1.updates,
                totalDeletes := results.totalDeletes + tr1.deletes,
                errors := results.errors ++
                  tr1.errors.map (fun e => diff.tableName ++ ": " ++ e) }

/-- applyDataChanges entry point. -/
def applyDataChanges (fails : Oracle) (affectedOf : String → Nat)
    (trace : List DBCall) (dataDiffs : List DataDiff) (batchSize : Nat)
    (continueOnError : Bool) : List DBCall × DataResults :=
  applyDataChangesLoop fails affectedOf batchSize continueOnError dataDiffs trace {}

/-- Aggregated result of applySchemaChanges; a failed entry carries table,
statement and message. -/
structure SchemaResults where
  success : Bool := true
  applied : List (String × String) := []
  failed : List (String × String × String) := []
  errors : List String := []
deriving DecidableEq, Repr

/-- One statement of the applySchemaChanges inner loop: attempt it, record
it as applied, or record the failure and flip success. -/
def schemaStmtStep (fails : Oracle) (tableName : String)
    (acc : List DBCall × SchemaResults) (sql : String) :
    List DBCall × SchemaResults :=
  let (trace1, ok) := attemptCall fails acc.1 (.executeSchema sql)
  if ok then
    (trace1, { acc.2 with applied := acc.2.applied ++ [(tableName, sql)] })
  else
    (trace1,
     { acc.2 with
         failed := acc.2.failed ++ [(tableName, sql, callErrMsg (.executeSchema sql))],
         errors := acc.2.errors ++ [callErrMsg (.executeSchema sql)],
         success := false })

/-- applySchemaChanges: every statement of every changed diff is attempted in
order; a failing statement is recorded and flips success but does not stop
the remaining statements. -/
def applySchemaChanges (fails : Oracle) (trace : List DBCall)
    (schemaDiffs : List SchemaDiff) : List DBCall × SchemaResults :=
  schemaDiffs.foldl
    (fun acc diff =>
      if !diff.hasChanges || diff.sql.isEmpty then acc
      else diff.sql.foldl (schemaStmtStep fails diff.tableName) acc)
    (trace, {})

/-- Combined result of executeSync. -/
structure SyncResults where
  success : Bool := true
  schema : Option SchemaResults := none
  data : Option DataResults := none
deriving DecidableEq, Repr

/-- executeSync: schema changes first; any schema failure sets success false
and returns before the data phase; otherwise the data phase runs and its
failure flips the overall flag. -/
def executeSync (fails : Oracle) (affectedOf : String → Nat)
    (schemaDiffs : List SchemaDiff) (dataDiffs : List DataDiff)
    (batchSize : Nat) (continueOnError : Bool) : List DBCall × SyncResults :=
  if schemaDiffs.isEmpty then
    if dataDiffs.isEmpty then ([], {})
    else
      let (trace1, dres) := applyDataChanges fails affectedOf [] dataDiffs batchSize continueOnError
      (trace1, { success := dres.success, data := some dres })
  else
    let (trace1, sres) := applySchemaChanges fails [] schemaDiffs
    if !sres.success then (trace1, { success := false, schema := some sres })
    else if dataDiffs.isEmpty then (trace1, { schema := some sres })
    else
      let (trace2, dres) := applyDataChanges fails affectedOf trace1 dataDiffs batchSize continueOnError
      (trace2, { success := dres.success, schema := some sres, data := some dres })

/-! ## Resilience layer (src/utils/retry.js) -/

/-- Retry configuration with the source defaults; delays are rationals
standing in for JS numbers. -/
structure RetryConfig where
  maxAttempts : Nat := 5
  baseDelayMs : ℚ := 1000
  maxDelayMs : ℚ := 30000
  multiplier : ℚ := 2
  jitterFactor : ℚ := 1 / 10

/-- JS `Math.round`: round half away from zero upward, i.e. floor of x +
1/2 for the values at hand. -/
def jsRound (x : ℚ) : ℤ := ⌊x + 1 / 2⌋

/-- calculateBackoff: base delay times multiplier to the power attempt − 1,
capped at the maximum, plus jitter drawn from `Math.random()` (the `rand`
argument, in [0, 1)), clamped below at zero after rounding. -/
def calculateBackoff (attempt : Nat) (config : RetryConfig) (rand : ℚ) : ℤ :=
  let exponentialDelay := config.baseDelayMs * config.multiplier ^ (attempt - 1)
  let cappedDelay := min exponentialDelay config.maxDelayMs
  let jitter := cappedDelay * config.jitterFactor * (rand * 2 - 1)
  max 0 (jsRound (cappedDelay + jitter))

/-! ## Specification-side helper definitions used by the theorems -/

/-- First local row whose primary-key identity string equals `k` (the perfect
lookup the streaming chunk phase is proved to implement under the
well-keyed-table hypotheses). -/
def findLocal (localTable : List Row) (pk : List String) (k : String) : Option Row :=
  localTable.find? (fun l => buildPrimaryKeyValue l pk == k)

/-- Specification form of the per-remote-row step of the streaming phase:
identical to processRemoteRow except that the chunk-local index lookup is
replaced by the perfect whole-table lookup. -/
def processRowSpec (localTable : List Row) (pk : List String)
    (st : StreamState) (remoteRow : Row) : StreamState :=
  let key := buildPrimaryKeyValue remoteRow pk
  let st := { st with seen := setAdd st.seen key,
                      remoteRows := if st.remoteRows == 0 then st.remoteRows + 1
                                    else st.remoteRows }
  match findLocal localTable pk key with
  | none =>
      { st with toInsert := st.toInsert ++ [remoteRow], inserts := st.inserts + 1 }
  | some localRow =>
      if rowsEqual remoteRow localRow then st
      else
        { st with
            toUpdate := st.toUpdate ++
              [{ remote := remoteRow, localRow := localRow,
                 changes := getRowChanges localRow remoteRow }],
            updates := st.updates + 1 }

/-- Update entry a remote row contributes under the perfect lookup: `none`
when the row is an insert or is unchanged. -/
def updOf (localTable : List Row) (pk : List String) (remoteRow : Row) :
    Option UpdateEntry :=
  match findLocal localTable pk (buildPrimaryKeyValue remoteRow pk) with
  | none => none
  | some localRow =>
      if rowsEqual remoteRow localRow then none
      else some { remote := remoteRow, localRow := localRow,
                  changes := getRowChanges localRow remoteRow }

/-- SQL match of a local row against a remote row on every primary-key
column, the predicate the generated batch-lookup WHERE clauses compute. -/
def sqlMatch (pk : List String) (l r : Row) : Bool :=
  pk.all (fun c => sqlEq (rowGet l c) (rowGet r c))

/-- Well-keyed table: every primary-key column of every row holds a defined,
non-NULL value. -/
def WellKeyed (pk : List String) (rows : List Row) : Prop :=
  ∀ r ∈ rows, ∀ c ∈ pk, ∃ v, rowGet r c = some v ∧ v ≠ Value.vNull

/-- Cross-table key soundness: remote and local rows that share the joined
identity string agree on every key column's value (rules out the unescaped
`|` collisions of C10). -/
def KeysInjective (pk : List String) (remoteRows localRows : List Row) : Prop :=
  ∀ r ∈ remoteRows, ∀ l ∈ localRows,
    buildPrimaryKeyValue r pk = buildPrimaryKeyValue l pk →
    ∀ c ∈ pk, rowGet r c = rowGet l c

/-! ## Claim C9: exponential backoff -/

/-- Unfolding equation of calculateBackoff. -/
theorem calculateBackoff_eq (attempt : Nat) (config : RetryConfig) (rand : ℚ) :
    calculateBackoff attempt config rand =
      max 0 (jsRound
        (min (config.baseDelayMs * config.multiplier ^ (attempt - 1)) config.maxDelayMs +
         min (config.baseDelayMs * config.multiplier ^ (attempt - 1)) config.maxDelayMs *
           config.jitterFactor * (rand * 2 - 1))) := rfl

/-- Rounding an integer-valued rational is the identity. -/
theorem jsRound_intCast (z : ℤ) : jsRound (z : ℚ) = z := by
  unfold jsRound
  rw [add_comm, Int.floor_add_int]
  norm_num

/-- C9: the backoff delay is the base delay times multiplier^(attempt−1)
capped at the configured maximum — exactly that capped value with zero
jitter, in particular 4000 ms for base 1000, multiplier 2, attempt 3, and
3000 ms when the maximum 3000 is lower — and with 10 percent jitter the
delay stays within jitterFactor·capped (plus the half-unit of rounding) of
the capped value, symmetrically. -/
theorem c9_calculateBackoff_exponential_capped_jitter :
    (∀ rand : ℚ, calculateBackoff 3
        { baseDelayMs := 1000, maxDelayMs := 30000, multiplier := 2,
          jitterFactor := 0 } rand = 4000) ∧
    (∀ rand : ℚ, calculateBackoff 3
        { baseDelayMs := 1000, maxDelayMs := 3000, multiplier := 2,
          jitterFactor := 0 } rand = 3000) ∧
    (∀ (config : RetryConfig) (attempt : Nat) (rand : ℚ),
      config.jitterFactor = 0 →
      0 ≤ min (config.baseDelayMs * config.multiplier ^ (attempt - 1)) config.maxDelayMs →
      calculateBackoff attempt config rand =
        jsRound (min (config.baseDelayMs * config.multiplier ^ (attempt - 1))
          config.maxDelayMs)) ∧
    (∀ (config : RetryConfig) (attempt : Nat) (rand : ℚ),
      0 ≤ rand → rand ≤ 1 →
      0 ≤ config.jitterFactor → config.jitterFactor ≤ 1 →
      0 ≤ min (config.baseDelayMs * config.multiplier ^ (attempt - 1)) config.maxDelayMs →
      |((calculateBackoff attempt config rand : ℤ) : ℚ) -
          min (config.baseDelayMs * config.multiplier ^ (attempt - 1)) config.maxDelayMs| ≤
        config.jitterFactor *
          min (config.baseDelayMs * config.multiplier ^ (attempt - 1)) config.maxDelayMs
          + 1 / 2) := by
  have zeroJitter : ∀ (config : RetryConfig) (attempt : Nat) (rand : ℚ),
      config.jitterFactor = 0 →
      0 ≤ min (config.baseDelayMs * config.multiplier ^ (attempt - 1)) config.maxDelayMs →
      calculateBackoff attempt config rand =
        jsRound (min (config.baseDelayMs * config.multiplier ^ (attempt - 1))
          config.maxDelayMs) := by
    intro config attempt rand hjf hcap
    rw [calculateBackoff_eq, hjf]
    have hz : 0 ≤ jsRound (min (config.baseDelayMs * config.multiplier ^ (attempt - 1))
        config.maxDelayMs) := by
      unfold jsRound
      rw [Int.le_floor]
      push_cast
      linarith
    simp only [mul_zero, zero_mul, add_zero]
    exact max_eq_right hz
  refine ⟨?_, ?_, zeroJitter, ?_⟩
  · intro rand
    rw [zeroJitter _ 3 rand rfl (by norm_num)]
    have h4 : min ((1000 : ℚ) * 2 ^ (3 - 1)) 30000 = ((4000 : ℤ) : ℚ) := by norm_num
    rw [h4, jsRound_intCast]
  · intro rand
    rw [zeroJitter _ 3 rand rfl (by norm_num)]
    have h3 : min ((1000 : ℚ) * 2 ^ (3 - 1)) 3000 = ((3000 : ℤ) : ℚ) := by norm_num
    rw [h3, jsRound_intCast]
  · intro config attempt rand h0 h1 hjf0 hjf1 hcap
    set c := min (config.baseDelayMs * config.multiplier ^ (attempt - 1))
      config.maxDelayMs with hc
    set j := c * config.jitterFactor * (rand * 2 - 1) with hj
    have habs21 : |rand * 2 - 1| ≤ 1 := by
      rw [abs_le]; constructor <;> linarith
    have hjabs : |j| ≤ config.jitterFactor * c := by
      rw [hj, abs_mul, abs_mul, abs_of_nonneg hcap, abs_of_nonneg hjf0]
      calc c * config.jitterFactor * |rand * 2 - 1| ≤ c * config.jitterFactor * 1 := by
            apply mul_le_mul_of_nonneg_left habs21
            exact mul_nonneg hcap hjf0
        _ = config.jitterFactor * c := by ring
    have hjlo : -(config.jitterFactor * c) ≤ j := (abs_le.mp hjabs).1
    have hx0 : 0 ≤ c + j := by
      have h1mc : 0 ≤ c * (1 - config.jitterFactor) :=
        mul_nonneg hcap (by linarith)
      nlinarith
    have hfl0 : 0 ≤ jsRound (c + j) := by
      unfold jsRound
      rw [Int.le_floor]
      push_cast
      linarith
    have hval : calculateBackoff attempt config rand = jsRound (c + j) := by
      rw [calculateBackoff_eq, ← hc, ← hj]
      exact max_eq_right hfl0
    rw [hval]
    have hfle : ((jsRound (c + j) : ℤ) : ℚ) ≤ c + j + 1 / 2 := by
      unfold jsRound
      exact Int.floor_le _
    have hflt : c + j + 1 / 2 < ((jsRound (c + j) : ℤ) : ℚ) + 1 := by
      unfold jsRound
      exact Int.lt_floor_add_one _
    have hround : |((jsRound (c + j) : ℤ) : ℚ) - (c + j)| ≤ 1 / 2 := by
      rw [abs_le]; constructor <;> linarith
    calc |((jsRound (c + j) : ℤ) : ℚ) - c|
        = |(((jsRound (c + j) : ℤ) : ℚ) - (c + j)) + j| := by ring_nf
      _ ≤ |((jsRound (c + j) : ℤ) : ℚ) - (c + j)| + |j| := abs_add _ _
      _ ≤ 1 / 2 + config.jitterFactor * c := by linarith
      _ = config.jitterFactor * c + 1 / 2 := by ring

/-- C9 witness: the general statements instantiated at attempt 3, base 1000,
multiplier 2. -/
theorem c9_calculateBackoff_witness :
    calculateBackoff 3
      { baseDelayMs := 1000, maxDelayMs := 30000, multiplier := 2, jitterFactor := 0 }
      (1 / 3) = 4000 ∧
    |((calculateBackoff 3
        { baseDelayMs := 1000, maxDelayMs := 30000, multiplier := 2, jitterFactor := 1 / 10 }
        (1 / 3) : ℤ) : ℚ) -
        min ((1000 : ℚ) * 2 ^ (3 - 1)) 30000| ≤
      (1 / 10) * min ((1000 : ℚ) * 2 ^ (3 - 1)) 30000 + 1 / 2 :=
  ⟨c9_calculateBackoff_exponential_capped_jitter.1 (1 / 3),
   c9_calculateBackoff_exponential_capped_jitter.2.2.2
     { baseDelayMs := 1000, maxDelayMs := 30000, multiplier := 2, jitterFactor := 1 / 10 }
     3 (1 / 3)
     (by norm_num) (by norm_num) (by norm_num) (by norm_num) (by norm_num)⟩

/-! ## Claim C7: diffTableSchema on missing inputs -/

/-- C7 counterexample: a missing remote schema does raise an error — the
source reads `remoteSchema.name` and throws a TypeError instead of
returning an empty no-change diff. -/
theorem c7_missing_remote_schema_throws :
    diffTableSchema none
        (some { name := "users", columns := [], indexes := [], primaryKey := [],
                createStatement := "CREATE TABLE users (id INT)" }) =
      Except.error "TypeError: Cannot read properties of null (reading 'name')" := rfl

/-- C7 (amended): diffTableSchema never throws when the remote schema is
present, and a missing local schema yields the create-table change diff
carrying the verbatim remote creation statement (not an empty no-change
diff); only a missing remote schema throws. -/
theorem c7_diffTableSchema_present_remote_total :
    ∀ (rs : TableSchema) (ls : Option TableSchema),
      (diffTableSchema (some rs) ls).isOk = true ∧
      diffTableSchema (some rs) none =
        Except.ok { tableName := rs.name, hasChanges := true, createTable := true,
                    createStatement := some rs.createStatement } := by
  intro rs ls
  refine ⟨?_, rfl⟩
  cases ls <;> rfl

/-! ## Claim C8: generateSchemaSQL statement order -/

/-- C8: generateSchemaSQL emits, in fixed order, the verbatim CREATE for a
create-table diff, else all ADD COLUMN, then all MODIFY COLUMN, then all
DROP COLUMN, then all ADD INDEX, then all DROP INDEX; and a diff produced
with the local schema absent yields createTable and exactly the one supplied
creation statement. -/
theorem c8_generateSchemaSQL_fixed_order :
    ∀ (diff : SchemaDiff) (rs : TableSchema),
      (diff.createTable = true →
        generateSchemaSQL diff = [diff.createStatement.getD "undefined"]) ∧
      (diff.createTable = false →
        generateSchemaSQL diff =
          diff.columnsToAdd.map (fun col =>
            "ALTER TABLE `" ++ diff.tableName ++ "` ADD COLUMN `" ++ col.name ++
              "` " ++ col.definition)
          ++ diff.columnsToModify.map (fun col =>
            "ALTER TABLE `" ++ diff.tableName ++ "` MODIFY COLUMN `" ++ col.name ++
              "` " ++ col.toDef)
          ++ diff.columnsToRemove.map (fun name =>
            "ALTER TABLE `" ++ diff.tableName ++ "` DROP COLUMN `" ++ name ++ "`")
          ++ diff.indexesToAdd.map (fun idx =>
            "ALTER TABLE `" ++ diff.tableName ++ "` ADD " ++
              (if idx.unique then "UNIQUE INDEX" else "INDEX") ++ " `" ++ idx.name ++
              "` (" ++ String.intercalate ", " (idx.columns.map (fun c => "`" ++ c ++ "`")) ++ ")")
          ++ diff.indexesToRemove.map (fun name =>
            "ALTER TABLE `" ++ diff.tableName ++ "` DROP INDEX `" ++ name ++ "`")) ∧
      (∀ d, diffTableSchema (some rs) none = Except.ok d →
        d.createTable = true ∧ generateSchemaSQL d = [rs.createStatement]) := by
  intro diff rs
  refine ⟨?_, ?_, ?_⟩
  · intro h
    simp [generateSchemaSQL, h]
  · intro h
    simp [generateSchemaSQL, h]
  · intro d h
    have hd : d = { tableName := rs.name, hasChanges := true, createTable := true,
                    createStatement := some rs.createStatement } := by
      simpa [diffTableSchema] using h.symm
    subst hd
    exact ⟨rfl, by simp [generateSchemaSQL]⟩

/-- C8 witness: the three parts instantiated at a concrete create-table diff
and a concrete remote schema. -/
theorem c8_generateSchemaSQL_witness :
    generateSchemaSQL
      { tableName := "t", createTable := true, createStatement := some "CREATE TABLE t (id INT)" } =
      ["CREATE TABLE t (id INT)"] ∧
    (∀ d, diffTableSchema
        (some { name := "t", columns := [], indexes := [], primaryKey := [],
                createStatement := "CREATE TABLE t (id INT)" }) none = Except.ok d →
      d.createTable = true ∧ generateSchemaSQL d = ["CREATE TABLE t (id INT)"]) :=
  ⟨(c8_generateSchemaSQL_fixed_order
      { tableName := "t", createTable := true, createStatement := some "CREATE TABLE t (id INT)" }
      { name := "t", columns := [], indexes := [], primaryKey := [],
        createStatement := "CREATE TABLE t (id INT)" }).1 rfl,
   (c8_generateSchemaSQL_fixed_order
      { tableName := "t", createTable := true, createStatement := some "CREATE TABLE t (id INT)" }
      { name := "t", columns := [], indexes := [], primaryKey := [],
        createStatement := "CREATE TABLE t (id INT)" }).2.2⟩

/-! ## Claim C10: primary-key identity strings -/

/-- Prepending an already-joined prefix commutes with the accumulator of
String.intercalate. -/
theorem intercalate_go_append (x : String) (s : String) :
    ∀ (as : List String) (y : String),
      String.intercalate.go (x ++ y) s as = x ++ String.intercalate.go y s as := by
  intro as
  induction as with
  | nil => intro y; rfl
  | cons a as ih =>
      intro y
      show String.intercalate.go (x ++ y ++ s ++ a) s as =
        x ++ String.intercalate.go (y ++ s ++ a) s as
      rw [String.append_assoc (x ++ y) s a, String.append_assoc x y (s ++ a),
        ← String.append_assoc y s a]
      exact ih (y ++ s ++ a)

/-- Cons-cons unfolding of String.intercalate. -/
theorem intercalate_cons_cons (s a b : String) (t : List String) :
    String.intercalate s (a :: b :: t) = a ++ s ++ String.intercalate s (b :: t) := by
  show String.intercalate.go a s (b :: t) = a ++ s ++ String.intercalate.go b s t
  show String.intercalate.go (a ++ s ++ b) s t = a ++ s ++ String.intercalate.go b s t
  exact intercalate_go_append (a ++ s) s t b

/-- Splitting a character-list concatenation at a delimiter absent from both
prefixes. -/
theorem append_bar_cons_inj :
    ∀ (la lb lx ly : List Char), '|' ∉ la → '|' ∉ lb →
      la ++ '|' :: lx = lb ++ '|' :: ly → la = lb ∧ lx = ly := by
  intro la
  induction la with
  | nil =>
      intro lb lx ly _ hb h
      cases lb with
      | nil => simpa using h
      | cons d ds =>
          simp only [List.nil_append, List.cons_append, List.cons.injEq] at h
          exact absurd (h.1 ▸ List.mem_cons_self d ds) (h.1 ▸ hb)
  | cons c cs ih =>
      intro lb lx ly ha hb h
      cases lb with
      | nil =>
          simp only [List.nil_append, List.cons_append, List.cons.injEq] at h
          exact absurd (h.1 ▸ List.mem_cons_self c cs) (fun hm => ha (h.1 ▸ hm))
      | cons d ds =>
          simp only [List.cons_append, List.cons.injEq] at h
          have hcs : '|' ∉ cs := fun hm => ha (List.mem_cons_of_mem c hm)
          have hds : '|' ∉ ds := fun hm => hb (List.mem_cons_of_mem d hm)
          obtain ⟨h1, h2⟩ := ih ds lx ly hcs hds h.2
          exact ⟨by rw [h.1, h1], h2⟩

/-- Splitting a string concatenation around a "|" absent from both
prefixes. -/
theorem append_bar_inj (a b x y : String) (ha : '|' ∉ a.data) (hb : '|' ∉ b.data)
    (h : a ++ "|" ++ x = b ++ "|" ++ y) : a = b ∧ x = y := by
  have hd : a.data ++ '|' :: x.data = b.data ++ '|' :: y.data := by
    have := congrArg String.data h
    simpa [String.data_append] using this
  obtain ⟨h1, h2⟩ := append_bar_cons_inj a.data b.data x.data y.data ha hb hd
  exact ⟨String.ext h1, String.ext h2⟩

/-- Joining with "|" is injective on equal-length lists of delimiter-free
strings. -/
theorem intercalate_bar_inj :
    ∀ (xs ys : List String), xs.length = ys.length →
      (∀ s ∈ xs, '|' ∉ s.data) → (∀ s ∈ ys, '|' ∉ s.data) →
      String.intercalate "|" xs = String.intercalate "|" ys → xs = ys := by
  intro xs
  induction xs with
  | nil =>
      intro ys hlen _ _ _
      cases ys with
      | nil => rfl
      | cons b bs => simp at hlen
  | cons a as ih =>
      intro ys hlen hxs hys h
      cases ys with
      | nil => simp at hlen
      | cons b bs =>
          cases as with
          | nil =>
              cases bs with
              | nil =>
                  have : a = b := h
                  rw [this]
              | cons b2 bs2 => simp at hlen
          | cons a2 as2 =>
              cases bs with
              | nil => simp at hlen
              | cons b2 bs2 =>
                  rw [intercalate_cons_cons, intercalate_cons_cons] at h
                  obtain ⟨hab, htail⟩ := append_bar_inj a b _ _
                    (hxs a (List.mem_cons_self a _))
                    (hys b (List.mem_cons_self b _)) h
                  have hlen2 : (a2 :: as2).length = (b2 :: bs2).length := by
                    simpa using hlen
                  have hrest := ih (b2 :: bs2) hlen2
                    (fun s hs => hxs s (List.mem_cons_of_mem a hs))
                    (fun s hs => hys s (List.mem_cons_of_mem b hs)) htail
                  rw [hab, hrest]

/-- C10: buildPrimaryKeyValue joins the key-column string values with an
unescaped `|`: the two distinct composite rows ('a|b','c') and ('a','b|c')
receive the same identity string — and the diff strategies then match them
as the same row (the streaming delete scan keeps the colliding local row,
the in-memory variant pairs the two rows as an update) — while on rows whose
key-column string forms contain no `|` the identity string determines every
key column's string form, i.e. the key builder is injective there. -/
theorem c10_buildPrimaryKeyValue_delimiter_collision :
    (buildPrimaryKeyValue [("k1", Value.vStr "a|b"), ("k2", Value.vStr "c")] ["k1", "k2"] =
       buildPrimaryKeyValue [("k1", Value.vStr "a"), ("k2", Value.vStr "b|c")] ["k1", "k2"] ∧
     rowGet [("k1", Value.vStr "a|b"), ("k2", Value.vStr "c")] "k1" ≠
       rowGet [("k1", Value.vStr "a"), ("k2", Value.vStr "b|c")] "k1") ∧
    ((streamingTableDiff "t" [[("k1", Value.vStr "a"), ("k2", Value.vStr "b|c")]]
        ["k1", "k2"] false false [[[("k1", Value.vStr "a|b"), ("k2", Value.vStr "c")]]]
        (some 1) 100).toDelete = [] ∧
     (inMemoryTableDiff "t" [[("k1", Value.vStr "a"), ("k2", Value.vStr "b|c")]]
        ["k1", "k2"] false false [[[("k1", Value.vStr "a|b"), ("k2", Value.vStr "c")]]]
        100).toUpdate.length = 1 ∧
     (inMemoryTableDiff "t" [[("k1", Value.vStr "a"), ("k2", Value.vStr "b|c")]]
        ["k1", "k2"] false false [[[("k1", Value.vStr "a|b"), ("k2", Value.vStr "c")]]]
        100).toInsert = []) ∧
    (∀ (pk : List String) (row1 row2 : Row),
      (∀ c ∈ pk, '|' ∉ (optValueToString (rowGet row1 c)).data) →
      (∀ c ∈ pk, '|' ∉ (optValueToString (rowGet row2 c)).data) →
      buildPrimaryKeyValue row1 pk = buildPrimaryKeyValue row2 pk →
      pk.map (fun c => optValueToString (rowGet row1 c)) =
        pk.map (fun c => optValueToString (rowGet row2 c))) := by
  refine ⟨by decide, ⟨by decide, by decide, by decide⟩, ?_⟩
  intro pk row1 row2 h1 h2 h
  apply intercalate_bar_inj
  · simp
  · intro s hs
    obtain ⟨c, hc, rfl⟩ := List.mem_map.mp hs
    exact h1 c hc
  · intro s hs
    obtain ⟨c, hc, rfl⟩ := List.mem_map.mp hs
    exact h2 c hc
  · exact h

/-- C10 witness: injectivity applied to two concrete delimiter-free rows. -/
theorem c10_buildPrimaryKeyValue_witness :
    ["k1", "k2"].map (fun c =>
        optValueToString (rowGet [("k1", Value.vStr "a"), ("k2", Value.vInt 7)] c)) =
      ["k1", "k2"].map (fun c =>
        optValueToString (rowGet [("k2", Value.vInt 7), ("k1", Value.vStr "a")] c)) :=
  c10_buildPrimaryKeyValue_delimiter_collision.2.2 ["k1", "k2"]
    [("k1", Value.vStr "a"), ("k2", Value.vInt 7)]
    [("k2", Value.vInt 7), ("k1", Value.vStr "a")]
    (by decide) (by decide) (by decide)

/-! ## Executor lemmas shared by the claims -/

/-- Invariant preservation along a left fold. -/
theorem foldl_invariant {α β : Type} (f : β → α → β) (P : β → Prop)
    (h : ∀ b a, P b → P (f b a)) : ∀ (l : List α) (b : β), P b → P (l.foldl f b) := by
  intro l
  induction l with
  | nil => intro b hb; exact hb
  | cons a t ih => intro b hb; exact ih (f b a) (h b a hb)

/-- With an oracle that never fails, execCalls runs the whole list: the trace
extends by every call in order, the counters fold over all of them, and no
error is returned. -/
theorem execCalls_noFail (fails : Oracle) (aff : Nat)
    (h : ∀ i c, fails i c = false) :
    ∀ (calls trace : List DBCall) (tr : TableResult),
      execCalls fails aff trace calls tr =
        (trace ++ calls, calls.foldl (countCall aff) tr, none) := by
  intro calls
  induction calls with
  | nil => intro trace tr; simp [execCalls]
  | cons c rest ih =>
      intro trace tr
      simp [execCalls, attemptCall, h, ih]

/-- Batches of a positive batch size hold at most batchSize rows each and
concatenate back to the original row list. -/
theorem batchesFuel_le_flatten (batchSize : Nat) (hpos : 0 < batchSize) :
    ∀ (fuel : Nat) (rows : List Row), rows.length < fuel →
      (∀ b ∈ batchesFuel fuel batchSize rows, b.length ≤ batchSize) ∧
      (batchesFuel fuel batchSize rows).flatten = rows := by
  intro fuel
  induction fuel with
  | zero => intro rows h; omega
  | succ fuel ih =>
      intro rows hlen
      by_cases hrows : rows.isEmpty
      · have : rows = [] := List.isEmpty_iff.mp hrows
        subst this
        simp [batchesFuel]
      · have hne : (rows.isEmpty || batchSize == 0) = false := by
          simp [hrows]; omega
        have hlen1 : 1 ≤ rows.length := by
          cases rows with
          | nil => simp at hrows
          | cons a t => simp
        have hdrop : (rows.drop batchSize).length < fuel := by
          rw [List.length_drop]
          omega
        obtain ⟨ihb, ihf⟩ := ih (rows.drop batchSize) hdrop
        constructor
        · intro b hb
          rw [batchesFuel, hne] at hb
          simp only [Bool.false_eq_true, if_false, List.mem_cons] at hb
          rcases hb with hb | hb
          · subst hb
            simp [List.length_take]
          · exact ihb b hb
        · rw [batchesFuel, hne]
          simp only [Bool.false_eq_true, if_false, List.flatten_cons, ihf]
          exact List.take_append_drop batchSize rows


/-- Canonical-fuel version of batchesFuel_le_flatten. -/
theorem batches_le_flatten (batchSize : Nat) (rows : List Row) (hpos : 0 < batchSize) :
    (∀ b ∈ batches batchSize rows, b.length ≤ batchSize) ∧
    (batches batchSize rows).flatten = rows :=
  batchesFuel_le_flatten batchSize hpos (rows.length + 1) rows (Nat.lt_succ_self _)

/-- With an oracle that never fails, applyIncrementalChanges issues exactly
begin, the body statements, and commit, and returns no error. -/
theorem applyIncrementalChanges_noFail (fails : Oracle)
    (h : ∀ i c, fails i c = false) (trace : List DBCall) (diff : DataDiff)
    (tr : TableResult) (batchSize : Nat) :
    applyIncrementalChanges fails trace diff tr batchSize =
      (trace ++ [DBCall.beginTransaction] ++ incrementalCallList diff batchSize,
       (incrementalCallList diff batchSize).foldl (countCall 0) tr, none) := by
  unfold applyIncrementalChanges attemptCall
  simp [h, execCalls_noFail fails 0 h]

/-- With an oracle that never fails, applyFullReplace issues exactly begin,
the table-wide delete, the batched re-inserts and commit, and returns no
error. -/
theorem applyFullReplace_noFail (fails : Oracle)
    (h : ∀ i c, fails i c = false) (trace : List DBCall) (diff : DataDiff)
    (tr : TableResult) (aff : Nat) :
    applyFullReplace fails trace diff tr aff =
      (trace ++ [DBCall.beginTransaction] ++ fullReplaceCallList diff,
       (fullReplaceCallList diff).foldl (countCall aff) tr, none) := by
  unfold applyFullReplace attemptCall
  simp [h, execCalls_noFail fails aff h]

/-- Whenever applyIncrementalChanges returns an error although the begin
statement itself succeeded, its final statement is the rollback. -/
theorem applyIncrementalChanges_error_rollback (fails : Oracle)
    (trace : List DBCall) (diff : DataDiff) (tr : TableResult) (batchSize : Nat)
    (hbegin : fails trace.length DBCall.beginTransaction = false) :
    ∀ trace' tr' err,
      applyIncrementalChanges fails trace diff tr batchSize = (trace', tr', some err) →
      ∃ t, trace' = t ++ [DBCall.rollback] := by
  intro trace' tr' err h
  unfold applyIncrementalChanges attemptCall at h
  simp [hbegin] at h
  rcases hexec : execCalls fails 0 (trace ++ [DBCall.beginTransaction])
      (incrementalCallList diff batchSize) tr with ⟨trace2, tr2, errOpt⟩
  rw [hexec] at h
  cases errOpt with
  | none => simp at h
  | some e =>
      simp at h
      exact ⟨trace2, h.1.symm⟩

/-- Error propagation of the rollback: when a body statement fails and the
rollback statement then fails as well, applyIncrementalChanges returns the
rollback's own error in place of the original one. -/
theorem applyIncrementalChanges_rollback_fail (fails : Oracle)
    (trace : List DBCall) (diff : DataDiff) (tr : TableResult) (batchSize : Nat)
    (trace2 : List DBCall) (tr2 : TableResult) (err : DBCall)
    (hbegin : fails trace.length DBCall.beginTransaction = false)
    (hexec : execCalls fails 0 (trace ++ [DBCall.beginTransaction])
      (incrementalCallList diff batchSize) tr = (trace2, tr2, some err))
    (hrb : fails trace2.length DBCall.rollback = true) :
    applyIncrementalChanges fails trace diff tr batchSize =
      (trace2 ++ [DBCall.rollback], tr2, some DBCall.rollback) := by
  unfold applyIncrementalChanges attemptCall
  simp [hbegin, hexec, hrb]

/-- When a table's apply step fails with continueOnError false, the loop
stops at that table: the returned trace is the failing table's and the later
diffs contribute nothing. -/
theorem applyDataChangesLoop_stop (fails : Oracle) (affectedOf : String → Nat)
    (batchSize : Nat) (diff : DataDiff) (rest : List DataDiff)
    (trace : List DBCall) (res : DataResults)
    (trace1 : List DBCall) (tr1 : TableResult) (err : DBCall)
    (hstep : (if diff.fullReplace then
        applyFullReplace fails trace diff { table := diff.tableName }
          (affectedOf diff.tableName)
      else
        applyIncrementalChanges fails trace diff { table := diff.tableName }
          batchSize) = (trace1, tr1, some err)) :
    applyDataChangesLoop fails affectedOf batchSize false (diff :: rest) trace res =
      (trace1,
       { res with success := false,
                  tables := res.tables ++ [{ tr1 with errors := tr1.errors ++ [callErrMsg err] }],
                  errors := res.errors ++ [diff.tableName ++ ": " ++ callErrMsg err] }) := by
  unfold applyDataChangesLoop
  simp only [hstep]
  simp

/-- With continueOnError true the loop never stops early: every diff yields
exactly one table entry, whatever the oracle does. -/
theorem applyDataChangesLoop_attempts_all (fails : Oracle)
    (affectedOf : String → Nat) (batchSize : Nat) :
    ∀ (diffs : List DataDiff) (trace : List DBCall) (res : DataResults),
      (applyDataChangesLoop fails affectedOf batchSize true diffs trace res).2.tables.length =
        res.tables.length + diffs.length := by
  intro diffs
  induction diffs with
  | nil => intro trace res; rfl
  | cons diff rest ih =>
      intro trace res
      unfold applyDataChangesLoop
      rcases hstep : (if diff.fullReplace then
          applyFullReplace fails trace diff { table := diff.tableName }
            (affectedOf diff.tableName)
        else
          applyIncrementalChanges fails trace diff { table := diff.tableName }
            batchSize) with ⟨trace1, tr1, errOpt⟩
      cases errOpt with
      | none => simp only [hstep]; simp [ih]; omega
      | some err => simp only [hstep]; simp [ih]; omega

/-- Invariant of applySchemaChanges: starting from the empty trace, every
issued call is a schema statement, and the success flag is false exactly
when some statement failed. -/
theorem applySchemaChanges_trace_failed (fails : Oracle)
    (schemaDiffs : List SchemaDiff) :
    (∀ call ∈ (applySchemaChanges fails [] schemaDiffs).1,
      ∃ sql, call = DBCall.executeSchema sql) ∧
    ((applySchemaChanges fails [] schemaDiffs).2.success = false ↔
      (applySchemaChanges fails [] schemaDiffs).2.failed ≠ []) := by
  have step2 : ∀ (tn : String) (b : List DBCall × SchemaResults) (sql : String),
      ((∀ call ∈ b.1, ∃ s, call = DBCall.executeSchema s) ∧
       (b.2.success = false ↔ b.2.failed ≠ [])) →
      ((∀ call ∈ (schemaStmtStep fails tn b sql).1, ∃ s, call = DBCall.executeSchema s) ∧
       ((schemaStmtStep fails tn b sql).2.success = false ↔
         (schemaStmtStep fails tn b sql).2.failed ≠ [])) := by
    intro tn b sql hb
    unfold schemaStmtStep attemptCall
    by_cases hf : fails b.1.length (DBCall.executeSchema sql) = true
    · simp only [hf]
      refine ⟨?_, by simp⟩
      intro call hc
      rcases List.mem_append.mp hc with hc | hc
      · exact hb.1 call hc
      · exact ⟨sql, List.mem_singleton.mp hc⟩
    · have hf' : fails b.1.length (DBCall.executeSchema sql) = false := by
        simpa using hf
      simp only [hf']
      refine ⟨?_, by simpa using hb.2⟩
      intro call hc
      rcases List.mem_append.mp hc with hc | hc
      · exact hb.1 call hc
      · exact ⟨sql, List.mem_singleton.mp hc⟩
  unfold applySchemaChanges
  exact foldl_invariant _
    (fun (b : List DBCall × SchemaResults) =>
      (∀ call ∈ b.1, ∃ s, call = DBCall.executeSchema s) ∧
      (b.2.success = false ↔ b.2.failed ≠ []))
    (fun b diff hb => by
      by_cases hskip : (!diff.hasChanges || diff.sql.isEmpty) = true
      · simpa [hskip] using hb
      · simp only [hskip, Bool.false_eq_true, if_false]
        exact foldl_invariant _ _ (step2 diff.tableName) diff.sql b hb)
    schemaDiffs (([], {}) : List DBCall × SchemaResults) (by constructor <;> simp)

/-! ## Claim C2: transactional data apply -/

/-- C2: a table's data changes run inside one transaction — with no failure
the call sequence is exactly begin, then the batched inserts (each batch at
most batchSize rows, batches concatenating back to the insert list), then the
per-row updates, then the per-row deletes, then commit; when a body statement
throws, the rollback is issued last and no commit follows; with
continueOnError false the run returns at the first failing table, with
continueOnError true every remaining table is still attempted; and the
insert plan whose second batch throws produces exactly
begin → insert(batch1) → insert(batch2) → rollback with a recorded error and
no commit. -/
theorem c2_applyDataChanges_transactional :
    (∀ (batchSize : Nat) (rows : List Row), 0 < batchSize →
      (∀ b ∈ batches batchSize rows, b.length ≤ batchSize) ∧
      (batches batchSize rows).flatten = rows) ∧
    (∀ (fails : Oracle) (trace : List DBCall) (diff : DataDiff)
        (tr : TableResult) (batchSize : Nat),
      (∀ i c, fails i c = false) →
      applyIncrementalChanges fails trace diff tr batchSize =
        (trace ++ [DBCall.beginTransaction]
          ++ (batches batchSize diff.toInsert).map (DBCall.insertRows diff.tableName)
          ++ diff.toUpdate.map (fun u =>
              DBCall.updateRow diff.tableName u.remote diff.primaryKey)
          ++ diff.toDelete.map (fun row =>
              DBCall.deleteRow diff.tableName
                (diff.primaryKey.map (fun c => (c, rowGet row c))))
          ++ [DBCall.commit],
         (incrementalCallList diff batchSize).foldl (countCall 0) tr, none)) ∧
    (∀ (fails : Oracle) (trace : List DBCall) (diff : DataDiff)
        (tr : TableResult) (batchSize : Nat)
        (trace' : List DBCall) (tr' : TableResult) (err : DBCall),
      fails trace.length DBCall.beginTransaction = false →
      applyIncrementalChanges fails trace diff tr batchSize = (trace', tr', some err) →
      ∃ t, trace' = t ++ [DBCall.rollback]) ∧
    (∀ (fails : Oracle) (affectedOf : String → Nat) (batchSize : Nat)
        (diff : DataDiff) (rest : List DataDiff) (trace : List DBCall)
        (res : DataResults) (trace1 : List DBCall) (tr1 : TableResult) (err : DBCall),
      (if diff.fullReplace then
          applyFullReplace fails trace diff { table := diff.tableName }
            (affectedOf diff.tableName)
        else
          applyIncrementalChanges fails trace diff { table := diff.tableName }
            batchSize) = (trace1, tr1, some err) →
      applyDataChangesLoop fails affectedOf batchSize false (diff :: rest) trace res =
        (trace1,
         { res with success := false,
                    tables := res.tables ++
                      [{ tr1 with errors := tr1.errors ++ [callErrMsg err] }],
                    errors := res.errors ++
                      [diff.tableName ++ ": " ++ callErrMsg err] })) ∧
    (∀ (fails : Oracle) (affectedOf : String → Nat) (batchSize : Nat)
        (diffs : List DataDiff) (trace : List DBCall) (res : DataResults),
      (applyDataChangesLoop fails affectedOf batchSize true diffs trace res).2.tables.length =
        res.tables.length + diffs.length) ∧
    (applyDataChanges (fun i _ => i == 2) (fun _ => 0) []
        [{ tableName := "t",
           toInsert := [[("id", Value.vInt 1)], [("id", Value.vInt 2)],
                        [("id", Value.vInt 3)]] }] 2 false =
      ([DBCall.beginTransaction,
        DBCall.insertRows "t" [[("id", Value.vInt 1)], [("id", Value.vInt 2)]],
        DBCall.insertRows "t" [[("id", Value.vInt 3)]],
        DBCall.rollback],
       { success := false,
         tables := [{ table := "t", inserts := 2,
                      errors := ["insert into t failed"] }],
         errors := ["t: insert into t failed"] }) ∧
      DBCall.commit ∉
        (applyDataChanges (fun i _ => i == 2) (fun _ => 0) []
          [{ tableName := "t",
             toInsert := [[("id", Value.vInt 1)], [("id", Value.vInt 2)],
                          [("id", Value.vInt 3)]] }] 2 false).1) := by
  refine ⟨batches_le_flatten, ?_, ?_, ?_, applyDataChangesLoop_attempts_all,
    by decide, by decide⟩
  · intro fails trace diff tr batchSize h
    rw [applyIncrementalChanges_noFail fails h]
    unfold incrementalCallList
    simp [List.append_assoc]
  · intro fails trace diff tr batchSize trace' tr' err hbegin h
    exact applyIncrementalChanges_error_rollback fails trace diff tr batchSize hbegin
      trace' tr' err h
  · intro fails affectedOf batchSize diff rest trace res trace1 tr1 err hstep
    exact applyDataChangesLoop_stop fails affectedOf batchSize diff rest trace res
      trace1 tr1 err hstep

/-- C2 witness: batching, the no-failure call shape and the rollback shape
instantiated at concrete inputs. -/
theorem c2_applyDataChanges_witness :
    (batches 2 [[("id", Value.vInt 1)], [("id", Value.vInt 2)],
        [("id", Value.vInt 3)]]).flatten =
      [[("id", Value.vInt 1)], [("id", Value.vInt 2)], [("id", Value.vInt 3)]] ∧
    applyIncrementalChanges (fun _ _ => false) []
      { tableName := "t", toInsert := [[("id", Value.vInt 1)]] } { table := "t" } 2 =
      ([DBCall.beginTransaction, DBCall.insertRows "t" [[("id", Value.vInt 1)]],
        DBCall.commit],
       { table := "t", inserts := 1 }, none) :=
  ⟨(c2_applyDataChanges_transactional.1 2 _ (by norm_num)).2,
   by
    have h := c2_applyDataChanges_transactional.2.1 (fun _ _ => false) []
      { tableName := "t", toInsert := [[("id", Value.vInt 1)]] } { table := "t" } 2
      (fun _ _ => rfl)
    rw [h]
    decide⟩

/-! ## Claim C3: schema failure gates the data phase -/

/-- C3: when at least one schema statement of an executeSync run fails (the
schema phase reports success = false, equivalently its failed list is
non-empty), the overall result has success = false, the data phase result
stays absent, and the trace holds schema statements only — no data-phase
call ever reaches the local store. -/
theorem c3_executeSync_schema_failure_gates_data :
    ∀ (fails : Oracle) (affectedOf : String → Nat) (schemaDiffs : List SchemaDiff)
      (dataDiffs : List DataDiff) (batchSize : Nat) (continueOnError : Bool),
      (applySchemaChanges fails [] schemaDiffs).2.success = false →
      ((executeSync fails affectedOf schemaDiffs dataDiffs batchSize continueOnError).2.success
          = false ∧
       (executeSync fails affectedOf schemaDiffs dataDiffs batchSize continueOnError).2.data
          = none ∧
       (∀ call ∈ (executeSync fails affectedOf schemaDiffs dataDiffs batchSize
          continueOnError).1, ∃ sql, call = DBCall.executeSchema sql) ∧
       (applySchemaChanges fails [] schemaDiffs).2.failed ≠ []) := by
  intro fails affectedOf schemaDiffs dataDiffs batchSize continueOnError hfail
  have htf := applySchemaChanges_trace_failed fails schemaDiffs
  have hne : schemaDiffs.isEmpty = false := by
    cases hd : schemaDiffs.isEmpty
    · rfl
    · exfalso
      have hnil : schemaDiffs = [] := List.isEmpty_iff.mp hd
      rw [hnil] at hfail
      simp [applySchemaChanges] at hfail
  rcases hsc : applySchemaChanges fails [] schemaDiffs with ⟨trace1, sres⟩
  have hsres : sres.success = false := by rw [hsc] at hfail; exact hfail
  have hexec : executeSync fails affectedOf schemaDiffs dataDiffs batchSize continueOnError =
      (trace1, { success := false, schema := some sres }) := by
    unfold executeSync
    simp [hne, hsc, hsres]
  rw [hexec]
  refine ⟨rfl, rfl, ?_, ?_⟩
  · intro call hc
    exact htf.1 call (by rw [hsc]; exact hc)
  · rw [hsc] at htf
    exact htf.2.mp hsres

/-- C3 witness: a single always-failing schema statement gates a pending
data diff. -/
theorem c3_executeSync_witness :
    (executeSync (fun _ _ => true) (fun _ => 0)
        [{ tableName := "t", hasChanges := true,
           sql := ["ALTER TABLE t ADD COLUMN c INT"] }]
        [{ tableName := "t", toInsert := [[("id", Value.vInt 1)]] }]
        1000 false).2.success = false ∧
    (executeSync (fun _ _ => true) (fun _ => 0)
        [{ tableName := "t", hasChanges := true,
           sql := ["ALTER TABLE t ADD COLUMN c INT"] }]
        [{ tableName := "t", toInsert := [[("id", Value.vInt 1)]] }]
        1000 false).2.data = none := by
  have h := c3_executeSync_schema_failure_gates_data (fun _ _ => true) (fun _ => 0)
    [{ tableName := "t", hasChanges := true,
       sql := ["ALTER TABLE t ADD COLUMN c INT"] }]
    [{ tableName := "t", toInsert := [[("id", Value.vInt 1)]] }]
    1000 false (by decide)
  exact ⟨h.1, h.2.1⟩

/-! ## Claim C4: primary-key-less tables take the full-replace path -/

/-- C4: with an empty primary-key list, diffTableData always routes to
fullTableDiff, whose result is a fullReplace diff carrying the whole remote
snapshot with insert count equal to the remote row count (so remote 2, local
1 gives fullReplace, 2 inserts, snapshot length 2), and the executor applies
it as one transaction: begin, table-wide delete, the batched re-inserts,
commit. -/
theorem c4_no_primary_key_full_replace :
    (∀ (tableName : String) (remote : RemoteModel) (localM : LocalModel)
        (opts : DiffOptions),
      (match opts.primaryKey with
        | some p => p
        | none => remote.schemaPrimaryKey) = [] →
      diffTableData tableName remote localM opts =
        fullTableDiff tableName localM.rows remote.chunks) ∧
    (∀ (tableName : String) (rows : List Row) (chunks : List (List Row)),
      (fullTableDiff tableName rows chunks).fullReplace = true ∧
      (fullTableDiff tableName rows chunks).remoteData = chunks.flatten ∧
      (fullTableDiff tableName rows chunks).stats.inserts = chunks.flatten.length ∧
      (fullTableDiff tableName rows chunks).stats.remoteRows = chunks.flatten.length ∧
      (fullTableDiff tableName rows chunks).stats.localRows = rows.length) ∧
    ((diffTableData "t"
        { schemaPrimaryKey := [],
          chunks := [[[("a", Value.vStr "x")], [("a", Value.vStr "y")]]] }
        { rows := [[("a", Value.vStr "z")]] } {}).fullReplace = true ∧
     (diffTableData "t"
        { schemaPrimaryKey := [],
          chunks := [[[("a", Value.vStr "x")], [("a", Value.vStr "y")]]] }
        { rows := [[("a", Value.vStr "z")]] } {}).stats.inserts = 2 ∧
     (diffTableData "t"
        { schemaPrimaryKey := [],
          chunks := [[[("a", Value.vStr "x")], [("a", Value.vStr "y")]]] }
        { rows := [[("a", Value.vStr "z")]] } {}).remoteData.length = 2) ∧
    (∀ (fails : Oracle) (trace : List DBCall) (diff : DataDiff)
        (tr : TableResult) (aff : Nat),
      (∀ i c, fails i c = false) →
      applyFullReplace fails trace diff tr aff =
        (trace ++ [DBCall.beginTransaction, DBCall.deleteAll diff.tableName]
          ++ (batches 1000 diff.remoteData).map (DBCall.insertRows diff.tableName)
          ++ [DBCall.commit],
         (fullReplaceCallList diff).foldl (countCall aff) tr, none)) := by
  refine ⟨?_, ?_, by decide, ?_⟩
  · intro tableName remote localM opts hpk
    unfold diffTableData
    rw [hpk]
    rfl
  · intro tableName rows chunks
    exact ⟨rfl, rfl, rfl, rfl, rfl⟩
  · intro fails trace diff tr aff h
    rw [applyFullReplace_noFail fails h]
    unfold fullReplaceCallList
    simp [List.append_assoc]

/-- C4 witness: routing and the executor shape at concrete inputs. -/
theorem c4_no_primary_key_witness :
    diffTableData "t"
        { schemaPrimaryKey := [], chunks := [[[("a", Value.vStr "x")]]] }
        { rows := [] } {} =
      fullTableDiff "t" [] [[[("a", Value.vStr "x")]]] ∧
    applyFullReplace (fun _ _ => false) []
        { tableName := "t", fullReplace := true,
          remoteData := [[("a", Value.vStr "x")]] } { table := "t" } 5 =
      ([DBCall.beginTransaction, DBCall.deleteAll "t",
        DBCall.insertRows "t" [[("a", Value.vStr "x")]], DBCall.commit],
       { table := "t", inserts := 1, deletes := 5 }, none) :=
  ⟨c4_no_primary_key_full_replace.1 "t"
      { schemaPrimaryKey := [], chunks := [[[("a", Value.vStr "x")]]] }
      { rows := [] } {} rfl,
   by
    have h := c4_no_primary_key_full_replace.2.2.2 (fun _ _ => false) []
      { tableName := "t", fullReplace := true,
        remoteData := [[("a", Value.vStr "x")]] } { table := "t" } 5
      (fun _ _ => rfl)
    rw [h]
    decide⟩

/-! ## Claim C6: rollback failures -/

/-- C6 counterexample: a run whose first table's insert fails and whose
rollback then fails as well, under continueOnError = true, still proceeds to
the second table and records the rollback error as that table's ordinary
error — so a rollback failure is not fatal to the run. -/
theorem c6_rollback_failure_counterexample :
    applyDataChanges (fun i _ => i == 1 || i == 2) (fun _ => 0) []
      [{ tableName := "a", toInsert := [[("id", Value.vInt 1)]] },
       { tableName := "b", toInsert := [[("id", Value.vInt 1)]] }] 1000 true =
    ([DBCall.beginTransaction, DBCall.insertRows "a" [[("id", Value.vInt 1)]],
      DBCall.rollback,
      DBCall.beginTransaction, DBCall.insertRows "b" [[("id", Value.vInt 1)]],
      DBCall.commit],
     { success := false,
       tables := [{ table := "a", errors := ["rollback failed"] },
                  { table := "b", inserts := 1 }],
       totalInserts := 1,
       errors := ["a: rollback failed"] }) := by decide

/-- C6 (amended): a failing rollback replaces the table's original error and
propagates out of the transaction scope, but applyDataChanges then treats it
like any other per-table error: the run stops only when continueOnError is
false (the default); with continueOnError true every remaining table is
still attempted, even after a rollback failure. -/
theorem c6_rollback_failure_amended :
    (∀ (fails : Oracle) (trace : List DBCall) (diff : DataDiff)
        (tr : TableResult) (batchSize : Nat) (trace2 : List DBCall)
        (tr2 : TableResult) (err : DBCall),
      fails trace.length DBCall.beginTransaction = false →
      execCalls fails 0 (trace ++ [DBCall.beginTransaction])
        (incrementalCallList diff batchSize) tr = (trace2, tr2, some err) →
      fails trace2.length DBCall.rollback = true →
      applyIncrementalChanges fails trace diff tr batchSize =
        (trace2 ++ [DBCall.rollback], tr2, some DBCall.rollback)) ∧
    (∀ (fails : Oracle) (affectedOf : String → Nat) (batchSize : Nat)
        (diffs : List DataDiff) (trace : List DBCall) (res : DataResults),
      (applyDataChangesLoop fails affectedOf batchSize true diffs trace res).2.tables.length =
        res.tables.length + diffs.length) ∧
    (∀ (fails : Oracle) (affectedOf : String → Nat) (batchSize : Nat)
        (diff : DataDiff) (rest : List DataDiff) (trace : List DBCall)
        (res : DataResults) (trace1 : List DBCall) (tr1 : TableResult) (err : DBCall),
      (if diff.fullReplace then
          applyFullReplace fails trace diff { table := diff.tableName }
            (affectedOf diff.tableName)
        else
          applyIncrementalChanges fails trace diff { table := diff.tableName }
            batchSize) = (trace1, tr1, some err) →
      applyDataChangesLoop fails affectedOf batchSize false (diff :: rest) trace res =
        (trace1,
         { res with success := false,
                    tables := res.tables ++
                      [{ tr1 with errors := tr1.errors ++ [callErrMsg err] }],
                    errors := res.errors ++
                      [diff.tableName ++ ": " ++ callErrMsg err] })) := by
  refine ⟨?_, applyDataChangesLoop_attempts_all, ?_⟩
  · intro fails trace diff tr batchSize trace2 tr2 err hbegin hexec hrb
    exact applyIncrementalChanges_rollback_fail fails trace diff tr batchSize
      trace2 tr2 err hbegin hexec hrb
  · intro fails affectedOf batchSize diff rest trace res trace1 tr1 err hstep
    exact applyDataChangesLoop_stop fails affectedOf batchSize diff rest trace res
      trace1 tr1 err hstep

/-- C6 witness: the rollback-error replacement instantiated at the concrete
failing run. -/
theorem c6_rollback_failure_witness :
    applyIncrementalChanges (fun i _ => i == 1 || i == 2) []
      { tableName := "a", toInsert := [[("id", Value.vInt 1)]] } { table := "a" } 1000 =
      ([DBCall.beginTransaction, DBCall.insertRows "a" [[("id", Value.vInt 1)]],
        DBCall.rollback],
       { table := "a" }, some DBCall.rollback) :=
  c6_rollback_failure_amended.1 (fun i _ => i == 1 || i == 2) []
    { tableName := "a", toInsert := [[("id", Value.vInt 1)]] } { table := "a" } 1000
    [DBCall.beginTransaction, DBCall.insertRows "a" [[("id", Value.vInt 1)]]]
    { table := "a" } (DBCall.insertRows "a" [[("id", Value.vInt 1)]])
    (by decide) (by decide) (by decide)

/-! ## Data-diff lemmas shared by the claims -/

/-- With a positive chunk size, the paged limit/offset scan visits exactly
the stored rows, in order. -/
theorem pagedVisitFuel_eq (chunkSize : Nat) (hpos : 0 < chunkSize) :
    ∀ (fuel : Nat) (rows : List Row), rows.length < fuel →
      pagedVisitFuel chunkSize fuel rows = rows := by
  intro fuel
  induction fuel with
  | zero => intro rows h; omega
  | succ fuel ih =>
      intro rows hlen
      rw [pagedVisitFuel]
      by_cases hfull : (rows.take chunkSize).length == chunkSize
      · have hfull' : (rows.take chunkSize).length = chunkSize := by
          simpa using hfull
        have hcs : chunkSize ≤ rows.length := by
          rw [List.length_take] at hfull'
          omega
        have hne : (chunkSize != 0) = true := by
          simp only [bne_iff_ne, ne_eq]
          omega
        simp only [hfull, hne, Bool.and_self, if_true]
        rw [ih (rows.drop chunkSize) (by rw [List.length_drop]; omega)]
        exact List.take_append_drop chunkSize rows
      · have hsmall : rows.length < chunkSize := by
          rw [List.length_take] at hfull
          by_cases h : chunkSize ≤ rows.length
          · exfalso
            exact hfull (by simp [Nat.min_eq_left h])
          · omega
        simp only [Bool.and_eq_true] at *
        have : ((rows.take chunkSize).length == chunkSize) = false := by
          simpa using hfull
        simp only [this, Bool.false_and, Bool.false_eq_true, if_false]
        exact List.take_of_length_le (by omega)

/-- Canonical-fuel version of pagedVisitFuel_eq. -/
theorem pagedVisit_eq (chunkSize : Nat) (rows : List Row) (hpos : 0 < chunkSize) :
    pagedVisit chunkSize rows = rows :=
  pagedVisitFuel_eq chunkSize hpos (rows.length + 1) rows (Nat.lt_succ_self _)

/-- Membership in the JS-set model after an add. -/
theorem mem_setAdd (s : List String) (k x : String) :
    x ∈ setAdd s k ↔ x ∈ s ∨ x = k := by
  unfold setAdd
  by_cases hk : k ∈ s
  · rw [if_pos (by simpa [List.contains, List.elem_iff] using hk)]
    constructor
    · exact Or.inl
    · rintro (hx | rfl)
      · exact hx
      · exact hk
  · rw [if_neg (by simpa [List.contains, List.elem_iff] using hk)]
    simp

/-- The streaming per-row step always records the row's key as seen. -/
theorem processRemoteRow_seen (pk : List String) (idx : List (String × Row))
    (st : StreamState) (r : Row) :
    (processRemoteRow pk idx st r).seen =
      setAdd st.seen (buildPrimaryKeyValue r pk) := by
  unfold processRemoteRow
  rcases h : alistGet? idx (buildPrimaryKeyValue r pk) with _ | lr
  · simp [h]
  · simp only [h]
    by_cases hre : rowsEqual r lr = true
    · simp [hre]
    · simp [hre]

/-- The in-memory per-row step always records the row's key as seen. -/
theorem inMemoryProcessRow_seen (pk : List String) (idx : List (String × Row))
    (st : StreamState) (r : Row) :
    (inMemoryProcessRow pk idx st r).seen =
      setAdd st.seen (buildPrimaryKeyValue r pk) := by
  unfold inMemoryProcessRow
  rcases h : alistGet? idx (buildPrimaryKeyValue r pk) with _ | lr
  · simp [h]
  · simp only [h]
    by_cases hre : rowsEqual r lr = true
    · simp [hre]
    · simp [hre]

/-- Seen-set membership after folding a row list with any step that records
keys like the source loops do. -/
theorem foldl_seen_mem (pk : List String) (f : StreamState → Row → StreamState)
    (hf : ∀ st r, (f st r).seen = setAdd st.seen (buildPrimaryKeyValue r pk)) :
    ∀ (rows : List Row) (st : StreamState) (x : String),
      x ∈ (rows.foldl f st).seen ↔
        x ∈ st.seen ∨ ∃ r ∈ rows, buildPrimaryKeyValue r pk = x := by
  intro rows
  induction rows with
  | nil => intro st x; simp
  | cons r rest ih =>
      intro st x
      rw [List.foldl_cons, ih, hf, mem_setAdd]
      simp only [List.mem_cons]
      constructor
      · rintro ((hx | rfl) | ⟨r', hr', hk⟩)
        · exact Or.inl hx
        · exact Or.inr ⟨r, Or.inl rfl, rfl⟩
        · exact Or.inr ⟨r', Or.inr hr', hk⟩
      · rintro (hx | ⟨r', hr' | hr', hk⟩)
        · exact Or.inl (Or.inl hx)
        · subst hr'; exact Or.inl (Or.inr hk.symm)
        · exact Or.inr ⟨r', hr', hk⟩

/-- Seen-set membership after the whole streaming chunk phase: exactly the
initial contents plus the keys of every remote row. -/
theorem streaming_seen_mem (localTable : List Row) (pk : List String) :
    ∀ (chunks : List (List Row)) (st : StreamState) (x : String),
      x ∈ (chunks.foldl (processChunk localTable pk) st).seen ↔
        x ∈ st.seen ∨ ∃ r ∈ chunks.flatten, buildPrimaryKeyValue r pk = x := by
  intro chunks
  induction chunks with
  | nil => intro st x; simp
  | cons chunk rest ih =>
      intro st x
      rw [List.foldl_cons, ih]
      unfold processChunk
      rw [foldl_seen_mem pk _ (fun st r => processRemoteRow_seen pk _ st r) chunk st x]
      simp only [List.flatten_cons, List.mem_append]
      constructor
      · rintro ((hx | ⟨r, hr, hk⟩) | ⟨r, hr, hk⟩)
        · exact Or.inl hx
        · exact Or.inr ⟨r, Or.inl hr, hk⟩
        · exact Or.inr ⟨r, Or.inr hr, hk⟩
      · rintro (hx | ⟨r, hr | hr, hk⟩)
        · exact Or.inl (Or.inl hx)
        · exact Or.inl (Or.inr ⟨r, hr, hk⟩)
        · exact Or.inr ⟨r, hr, hk⟩

/-- Seen-set membership after the in-memory comparison phase. -/
theorem inMemory_seen_mem (pk : List String) (idx : List (String × Row)) :
    ∀ (chunks : List (List Row)) (st : StreamState) (x : String),
      x ∈ (chunks.foldl
            (fun st chunk => chunk.foldl (inMemoryProcessRow pk idx) st) st).seen ↔
        x ∈ st.seen ∨ ∃ r ∈ chunks.flatten, buildPrimaryKeyValue r pk = x := by
  intro chunks
  induction chunks with
  | nil => intro st x; simp
  | cons chunk rest ih =>
      intro st x
      rw [List.foldl_cons, ih,
        foldl_seen_mem pk _ (fun st r => inMemoryProcessRow_seen pk _ st r) chunk st x]
      simp only [List.flatten_cons, List.mem_append]
      constructor
      · rintro ((hx | ⟨r, hr, hk⟩) | ⟨r, hr, hk⟩)
        · exact Or.inl hx
        · exact Or.inr ⟨r, Or.inl hr, hk⟩
        · exact Or.inr ⟨r, Or.inr hr, hk⟩
      · rintro (hx | ⟨r, hr | hr, hk⟩)
        · exact Or.inl (Or.inl hx)
        · exact Or.inl (Or.inr ⟨r, hr, hk⟩)
        · exact Or.inr ⟨r, hr, hk⟩

/-- Key membership after a JS-map set. -/
theorem mem_keys_alistSet (m : List (String × Row)) (k x : String) (v : Row) :
    x ∈ (alistSet m k v).map Prod.fst ↔ x ∈ m.map Prod.fst ∨ x = k := by
  unfold alistSet
  by_cases h : m.any (fun p => p.1 == k) = true
  · obtain ⟨p, hp, he⟩ := List.any_eq_true.mp h
    have hk : k ∈ m.map Prod.fst :=
      List.mem_map.mpr ⟨p, hp, eq_of_beq he⟩
    have hkeys : (m.map (fun p => if p.1 == k then (k, v) else p)).map Prod.fst =
        m.map Prod.fst := by
      rw [List.map_map]
      apply List.map_congr_left
      intro q hq
      by_cases hqk : (q.1 == k) = true
      · simp only [Function.comp, hqk, if_true]
        exact (eq_of_beq hqk).symm
      · simp [Function.comp, hqk]
    simp only [h, if_true, hkeys]
    constructor
    · exact Or.inl
    · rintro (hx | rfl)
      · exact hx
      · exact hk
  · rw [if_neg h]
    simp

/-- Key membership of a fold of JS-map sets keyed by primary-key strings. -/
theorem mem_keys_foldIndex (pk : List String) :
    ∀ (rows : List Row) (m0 : List (String × Row)) (x : String),
      x ∈ (rows.foldl (fun m row => alistSet m (buildPrimaryKeyValue row pk) row) m0).map
          Prod.fst ↔
        x ∈ m0.map Prod.fst ∨ ∃ r ∈ rows, buildPrimaryKeyValue r pk = x := by
  intro rows
  induction rows with
  | nil => intro m0 x; simp
  | cons r rest ih =>
      intro m0 x
      rw [List.foldl_cons, ih, mem_keys_alistSet]
      simp only [List.mem_cons]
      constructor
      · rintro ((hx | rfl) | ⟨r', hr', hk⟩)
        · exact Or.inl hx
        · exact Or.inr ⟨r, Or.inl rfl, rfl⟩
        · exact Or.inr ⟨r', Or.inr hr', hk⟩
      · rintro (hx | ⟨r', hr' | hr', hk⟩)
        · exact Or.inl (Or.inl hx)
        · subst hr'; exact Or.inl (Or.inr hk.symm)
        · exact Or.inr ⟨r', hr', hk⟩

/-! ## Claim C5: the incremental strategy never reports deletes -/

/-- C5: a diff tagged incremental is produced with an empty toDelete list and
a zero delete count, for every input; whereas the full-scan strategies do
report deletes: whenever the local table holds a row whose primary key occurs
in no remote row, the streaming diff puts that row into toDelete, and the
legacy in-memory diff also reports a non-empty toDelete — in both cases with
a positive delete count. -/
theorem c5_incremental_never_deletes :
    (∀ (tableName : String) (remote : RemoteModel) (localM : LocalModel)
        (opts : DiffOptions),
      (diffTableData tableName remote localM opts).incremental = true →
      (diffTableData tableName remote localM opts).toDelete = [] ∧
      (diffTableData tableName remote localM opts).stats.deletes = 0) ∧
    (∀ (tableName : String) (localTable : List Row) (pk : List String)
        (hU hC : Bool) (chunks : List (List Row)) (rowCount : Option Nat)
        (chunkSize : Nat) (l : Row),
      0 < chunkSize → l ∈ localTable →
      (∀ r ∈ chunks.flatten,
        buildPrimaryKeyValue r pk ≠ buildPrimaryKeyValue l pk) →
      l ∈ (streamingTableDiff tableName localTable pk hU hC chunks rowCount
            chunkSize).toDelete ∧
      0 < (streamingTableDiff tableName localTable pk hU hC chunks rowCount
            chunkSize).stats.deletes) ∧
    (∀ (tableName : String) (localTable : List Row) (pk : List String)
        (hU hC : Bool) (chunks : List (List Row)) (chunkSize : Nat) (l : Row),
      0 < chunkSize → l ∈ localTable →
      (∀ r ∈ chunks.flatten,
        buildPrimaryKeyValue r pk ≠ buildPrimaryKeyValue l pk) →
      (inMemoryTableDiff tableName localTable pk hU hC chunks
          chunkSize).toDelete ≠ [] ∧
      0 < (inMemoryTableDiff tableName localTable pk hU hC chunks
          chunkSize).stats.deletes) := by
  refine ⟨?_, ?_, ?_⟩
  · intro tableName remote localM opts
    have hinc : ∀ (pk : List String) (tsCol : String) (maxTs : Option String)
        (lt mr : List Row) (rc : Nat) (ch : List (List Row)),
        (incrementalDiff tableName pk tsCol maxTs lt mr rc ch).incremental = true →
        (incrementalDiff tableName pk tsCol maxTs lt mr rc ch).toDelete = [] ∧
        (incrementalDiff tableName pk tsCol maxTs lt mr rc ch).stats.deletes = 0 := by
      intro pk tsCol maxTs lt mr rc ch
      unfold incrementalDiff
      split
      · intro h
        simp [fullPrimaryKeyDiff] at h
      · split
        · intro _
          exact ⟨rfl, rfl⟩
        · intro _
          exact ⟨rfl, rfl⟩
    unfold diffTableData
    rcases hopt : opts.primaryKey with _ | p <;> simp only [hopt] <;> split
    · intro h
      simp [fullTableDiff] at h
    · split
      · exact hinc _ _ _ _ _ _ _
      · split
        · intro h
          simp [streamingTableDiff] at h
        · intro h
          simp [inMemoryTableDiff] at h
    · intro h
      simp [fullTableDiff] at h
    · split
      · exact hinc _ _ _ _ _ _ _
      · split
        · intro h
          simp [streamingTableDiff] at h
        · intro h
          simp [inMemoryTableDiff] at h
  · intro tableName localTable pk hU hC chunks rowCount chunkSize l hcs hl habsent
    have hseen : l ∈ (pagedVisit chunkSize localTable).filter (fun localRow =>
        !(chunks.foldl (processChunk localTable pk)
            { remoteRows := rowCount.getD 0 } : StreamState).seen.contains
          (buildPrimaryKeyValue localRow pk)) := by
      rw [pagedVisit_eq chunkSize localTable hcs]
      apply List.mem_filter.mpr
      refine ⟨hl, ?_⟩
      simp only [Bool.not_eq_true']
      by_cases hmem : buildPrimaryKeyValue l pk ∈
          (chunks.foldl (processChunk localTable pk)
            { remoteRows := rowCount.getD 0 } : StreamState).seen
      · exfalso
        rcases (streaming_seen_mem localTable pk chunks _ _).mp hmem with hx | ⟨r, hr, hk⟩
        · simp at hx
        · exact habsent r hr hk
      · simpa [List.contains, List.elem_iff] using hmem
    constructor
    · exact hseen
    · have hne : (streamingTableDiff tableName localTable pk hU hC chunks rowCount
          chunkSize).toDelete ≠ [] := by
        intro hnil
        rw [show (streamingTableDiff tableName localTable pk hU hC chunks rowCount
            chunkSize).toDelete = (pagedVisit chunkSize localTable).filter
              (fun localRow =>
                !(chunks.foldl (processChunk localTable pk)
                    { remoteRows := rowCount.getD 0 } : StreamState).seen.contains
                  (buildPrimaryKeyValue localRow pk)) from rfl] at hnil
        rw [hnil] at hseen
        exact absurd hseen (List.not_mem_nil l)
      have : (streamingTableDiff tableName localTable pk hU hC chunks rowCount
          chunkSize).stats.deletes = (streamingTableDiff tableName localTable pk hU hC
            chunks rowCount chunkSize).toDelete.length := rfl
      rw [this]
      exact List.length_pos.mpr hne
  · intro tableName localTable pk hU hC chunks chunkSize l hcs hl habsent
    set idx := (pagedVisit chunkSize localTable).foldl
      (fun m row => alistSet m (buildPrimaryKeyValue row pk) row) [] with hidx
    set st := chunks.foldl
      (fun st chunk => chunk.foldl (inMemoryProcessRow pk idx) st)
      ({} : StreamState) with hst
    have hkey : buildPrimaryKeyValue l pk ∈ idx.map Prod.fst := by
      rw [hidx, mem_keys_foldIndex pk, pagedVisit_eq chunkSize localTable hcs]
      exact Or.inr ⟨l, hl, rfl⟩
    obtain ⟨p, hp, hpk⟩ := List.mem_map.mp hkey
    have hnotseen : p.1 ∉ st.seen := by
      intro hmem
      rcases (inMemory_seen_mem pk idx chunks _ _).mp hmem with hx | ⟨r, hr, hk⟩
      · simp at hx
      · exact habsent r hr (hk.trans hpk)
    have hpfilter : p ∈ idx.filter (fun p => !st.seen.contains p.1) :=
      List.mem_filter.mpr ⟨hp, by simpa [List.contains, List.elem_iff] using hnotseen⟩
    have hmem2 : p.2 ∈ (inMemoryTableDiff tableName localTable pk hU hC chunks
        chunkSize).toDelete := by
      rw [show (inMemoryTableDiff tableName localTable pk hU hC chunks
          chunkSize).toDelete = (idx.filter (fun p => !st.seen.contains p.1)).map
            Prod.snd from rfl]
      exact List.mem_map.mpr ⟨p, hpfilter, rfl⟩
    constructor
    · intro hnil
      rw [hnil] at hmem2
      exact absurd hmem2 (List.not_mem_nil p.2)
    · have : (inMemoryTableDiff tableName localTable pk hU hC chunks
          chunkSize).stats.deletes = (inMemoryTableDiff tableName localTable pk hU hC
            chunks chunkSize).toDelete.length := rfl
      rw [this]
      apply List.length_pos.mpr
      intro hnil
      rw [hnil] at hmem2
      exact absurd hmem2 (List.not_mem_nil p.2)

/-- C5 witness: an incremental run with a stale local row reports no deletes,
while the streaming diff on the same tables reports the stale row. -/
theorem c5_incremental_witness :
    ((diffTableData "t"
        { schemaPrimaryKey := ["id"], hasUpdatedAt := true,
          modifiedRows := [[("id", Value.vInt 1), ("updated_at", Value.vDate "2024-06-01")]] }
        { tableExists := true, hasUpdatedAt := true,
          rows := [[("id", Value.vInt 9), ("updated_at", Value.vDate "2024-01-01")]],
          maxTimestamp := some "2024-01-01" } {}).toDelete = [] ∧
     (diffTableData "t"
        { schemaPrimaryKey := ["id"], hasUpdatedAt := true,
          modifiedRows := [[("id", Value.vInt 1), ("updated_at", Value.vDate "2024-06-01")]] }
        { tableExists := true, hasUpdatedAt := true,
          rows := [[("id", Value.vInt 9), ("updated_at", Value.vDate "2024-01-01")]],
          maxTimestamp := some "2024-01-01" } {}).stats.deletes = 0) ∧
    [("id", Value.vInt 9)] ∈
      (streamingTableDiff "t" [[("id", Value.vInt 9)]] ["id"] false false
        [[[("id", Value.vInt 1)]]] (some 1) 2).toDelete :=
  ⟨c5_incremental_never_deletes.1 "t"
      { schemaPrimaryKey := ["id"], hasUpdatedAt := true,
        modifiedRows := [[("id", Value.vInt 1), ("updated_at", Value.vDate "2024-06-01")]] }
      { tableExists := true, hasUpdatedAt := true,
        rows := [[("id", Value.vInt 9), ("updated_at", Value.vDate "2024-01-01")]],
        maxTimestamp := some "2024-01-01" } {} (by decide),
   (c5_incremental_never_deletes.2.1 "t" [[("id", Value.vInt 9)]] ["id"] false false
      [[[("id", Value.vInt 1)]]] (some 1) 2 [("id", Value.vInt 9)]
      (by norm_num) (by decide) (by decide)).1⟩

/-! ## Streaming-diff lemmas towards claim C1 -/

/-- SQL equality only ever holds between equal defined values. -/
theorem sqlEq_eq {a b : Option Value} (h : sqlEq a b = true) : a = b := by
  unfold sqlEq at h
  rcases a with _ | x <;> rcases b with _ | y <;> simp_all

/-- SQL equality holds between equal, defined, non-NULL values. -/
theorem sqlEq_of {a b : Option Value} (hv : a = b)
    (hb : ∃ v, b = some v ∧ v ≠ Value.vNull) : sqlEq a b = true := by
  obtain ⟨v, rfl, hvn⟩ := hb
  subst hv
  show (!(v == Value.vNull) && !(v == Value.vNull) && v == v) = true
  simp [hvn]

/-- Under well-keyed tables with collision-free key strings, the SQL match
computed by the batch lookup coincides with equality of the joined
primary-key identity strings. -/
theorem sqlMatch_iff_key (pk : List String) (remoteRows localRows : List Row)
    (hwkR : WellKeyed pk remoteRows) (hwkL : WellKeyed pk localRows)
    (hinj : KeysInjective pk remoteRows localRows)
    {r l : Row} (hr : r ∈ remoteRows) (hl : l ∈ localRows) :
    sqlMatch pk l r = true ↔
      buildPrimaryKeyValue l pk = buildPrimaryKeyValue r pk := by
  constructor
  · intro h
    unfold buildPrimaryKeyValue
    congr 1
    apply List.map_congr_left
    intro c hc
    have hc2 := List.all_eq_true.mp h c hc
    have := sqlEq_eq (by simpa using hc2)
    rw [this]
  · intro h
    unfold sqlMatch
    apply List.all_eq_true.mpr
    intro c hc
    have hget : rowGet r c = rowGet l c :=
      hinj r hr l hl h.symm c hc
    exact sqlEq_of hget.symm (hwkR r hr c hc)

/-- Membership characterisation of the batch lookup: a local row is returned
exactly when it SQL-matches some row of the chunk. -/
theorem mem_batchLookupByPK (localTable : List Row) (pk : List String)
    (c : List Row) (l : Row) :
    l ∈ batchLookupByPK localTable pk c ↔
      l ∈ localTable ∧ ∃ r ∈ c, sqlMatch pk l r = true := by
  unfold batchLookupByPK
  by_cases hc : c.isEmpty
  · have : c = [] := List.isEmpty_iff.mp hc
    subst this
    simp
  · simp only [hc, Bool.false_eq_true, if_false]
    rcases pk with _ | ⟨c0, pkrest⟩
    · simp only [List.length_nil]
      rw [if_neg (by simp)]
      rw [List.mem_filter]
      constructor
      · rintro ⟨h1, h2⟩
        refine ⟨h1, ?_⟩
        obtain ⟨r, hrc, _⟩ := List.any_eq_true.mp h2
        exact ⟨r, hrc, by simp [sqlMatch]⟩
      · rintro ⟨h1, r, hrc, _⟩
        exact ⟨h1, List.any_eq_true.mpr ⟨r, hrc, by simp [sqlMatch]⟩⟩
    · rcases pkrest with _ | ⟨c1, pkrest2⟩
      · rw [if_pos (by simp)]
        rw [List.mem_filter]
        constructor
        · rintro ⟨h1, h2⟩
          refine ⟨h1, ?_⟩
          obtain ⟨v, hv, hsql⟩ := List.any_eq_true.mp h2
          obtain ⟨r, hrc, rfl⟩ := List.mem_map.mp hv
          exact ⟨r, hrc, by simpa [sqlMatch] using hsql⟩
        · rintro ⟨h1, r, hrc, hm⟩
          refine ⟨h1, ?_⟩
          apply List.any_eq_true.mpr
          exact ⟨rowGet r (List.headD [c0] ""), List.mem_map.mpr ⟨r, hrc, rfl⟩,
            by simpa [sqlMatch] using hm⟩
      · rw [if_neg (by simp)]
        rw [List.mem_filter]
        constructor
        · rintro ⟨h1, h2⟩
          obtain ⟨r, hrc, hm⟩ := List.any_eq_true.mp h2
          exact ⟨h1, r, hrc, hm⟩
        · rintro ⟨h1, r, hrc, hm⟩
          exact ⟨h1, List.any_eq_true.mpr ⟨r, hrc, hm⟩⟩

/-- Substituting one key's value leaves lookups of other keys untouched. -/
theorem find?_map_subst (k k' : String) (v : Row) (h : k' ≠ k) :
    ∀ m : List (String × Row),
      (m.map (fun p => if p.1 == k then (k, v) else p)).find? (fun p => p.1 == k') =
        m.find? (fun p => p.1 == k') := by
  intro m
  induction m with
  | nil => rfl
  | cons q rest ih =>
      rw [List.map_cons]
      by_cases hq : (q.1 == k) = true
      · have hq1 : q.1 = k := eq_of_beq hq
        have hkk' : (k == k') = false := beq_eq_false_iff_ne.mpr (Ne.symm h)
        have hq2 : (q.1 == k') = false := by rw [hq1]; exact hkk'
        rw [show (if q.1 == k then (k, v) else q) = (k, v) from by simp [hq]]
        rw [List.find?_cons_of_neg _ (by simp [hkk'])]
        rw [List.find?_cons_of_neg _ (by simp [hq2])]
        exact ih
      · have hq' : (q.1 == k) = false := by simpa using hq
        rw [show (if q.1 == k then (k, v) else q) = q from by simp [hq']]
        by_cases hq2 : (q.1 == k') = true
        · rw [List.find?_cons_of_pos _ (by simpa using hq2)]
          rw [List.find?_cons_of_pos _ (by simpa using hq2)]
        · have hq2' : (q.1 == k') = false := by simpa using hq2
          rw [List.find?_cons_of_neg _ (by simp [hq2'])]
          rw [List.find?_cons_of_neg _ (by simp [hq2'])]
          exact ih

/-- Lookup of the key just set. -/
theorem alistGet?_set_self (m : List (String × Row)) (k : String) (v : Row) :
    alistGet? (alistSet m k v) k = some v := by
  unfold alistSet alistGet?
  by_cases h : m.any (fun p => p.1 == k) = true
  · rw [if_pos h]
    have : ∀ m' : List (String × Row), m'.any (fun p => p.1 == k) = true →
        (m'.map (fun p => if p.1 == k then (k, v) else p)).find? (fun p => p.1 == k) =
          some (k, v) := by
      intro m'
      induction m' with
      | nil => intro h2; simp at h2
      | cons q rest ih =>
          intro h2
          rw [List.map_cons]
          by_cases hq : (q.1 == k) = true
          · rw [show (if q.1 == k then (k, v) else q) = (k, v) from by simp [hq]]
            rw [List.find?_cons_of_pos _ (by simp)]
          · have hq' : (q.1 == k) = false := by simpa using hq
            have h3 : rest.any (fun p => p.1 == k) = true := by
              rcases List.any_eq_true.mp h2 with ⟨p, hp, hpk⟩
              rcases List.mem_cons.mp hp with rfl | hp2
              · rw [hpk] at hq'; cases hq'
              · exact List.any_eq_true.mpr ⟨p, hp2, hpk⟩
            rw [show (if q.1 == k then (k, v) else q) = q from by simp [hq']]
            rw [List.find?_cons_of_neg _ (by simp [hq'])]
            exact ih h3
    rw [this m h]
    rfl
  · rw [if_neg h]
    have h2 : m.find? (fun p => p.1 == k) = none := by
      apply List.find?_eq_none.mpr
      intro p hp
      rcases hany : (p.1 == k) with _ | _
      · simp
      · exfalso
        have : m.any (fun p => p.1 == k) = true := List.any_eq_true.mpr ⟨p, hp, hany⟩
        rw [this] at h; exact h rfl
    rw [List.find?_append, h2]
    simp

/-- Lookup of a different key after a set. -/
theorem alistGet?_set_ne (m : List (String × Row)) (k k' : String) (v : Row)
    (h : k' ≠ k) : alistGet? (alistSet m k v) k' = alistGet? m k' := by
  unfold alistSet alistGet?
  by_cases hany : m.any (fun p => p.1 == k) = true
  · rw [if_pos hany, find?_map_subst k k' v h]
  · rw [if_neg hany, List.find?_append]
    have : ([(k, v)].find? (fun p => p.1 == k')) = none := by
      simp [List.find?_cons, beq_eq_false_iff_ne.mpr (Ne.symm h)]
    rw [this]
    simp

/-- Characterisation of the chunk-index lookup built by repeated JS-map sets:
the last row of the fold with the queried key wins, else the lookup falls
back to the initial map. -/
theorem alistGet?_foldIndex (pk : List String) :
    ∀ (rows : List Row) (m0 : List (String × Row)) (k : String),
      alistGet? (rows.foldl
        (fun m row => alistSet m (buildPrimaryKeyValue row pk) row) m0) k =
      (match rows.reverse.find? (fun r => buildPrimaryKeyValue r pk == k) with
       | some r => some r
       | none => alistGet? m0 k) := by
  intro rows
  induction rows with
  | nil => intro m0 k; rfl
  | cons r rest ih =>
      intro m0 k
      rw [List.foldl_cons, ih, List.reverse_cons, List.find?_append]
      rcases hfind : rest.reverse.find? (fun r => buildPrimaryKeyValue r pk == k)
        with _ | r'
      · simp only [Option.none_or]
        by_cases hk : (buildPrimaryKeyValue r pk == k) = true
        · have : [r].find? (fun r => buildPrimaryKeyValue r pk == k) = some r := by
            simp [List.find?_cons, hk]
          rw [this]
          have hkeq : buildPrimaryKeyValue r pk = k := eq_of_beq hk
          rw [← hkeq, alistGet?_set_self]
        · have hk' : (buildPrimaryKeyValue r pk == k) = false := by simpa using hk
          have : [r].find? (fun r => buildPrimaryKeyValue r pk == k) = none := by
            simp [List.find?_cons, hk']
          rw [this]
          exact alistGet?_set_ne m0 (buildPrimaryKeyValue r pk) k r
            (by intro he; rw [he] at hk'; simp at hk')
      · simp

/-- A list finds the element x when x belongs to it, satisfies the predicate,
and is the only member doing so. -/
theorem find?_unique {α : Type} (p : α → Bool) :
    ∀ (lst : List α) (x : α), x ∈ lst → p x = true →
      (∀ y ∈ lst, p y = true → y = x) → lst.find? p = some x := by
  intro lst
  induction lst with
  | nil => intro x hx; simp at hx
  | cons a rest ih =>
      intro x hx hpx huniq
      by_cases ha : p a = true
      · rw [List.find?_cons, ha]
        rw [huniq a (List.mem_cons_self a rest) ha]
      · have ha' : p a = false := by simpa using ha
        rw [List.find?_cons, ha']
        rcases List.mem_cons.mp hx with rfl | hx2
        · rw [hpx] at ha'; cases ha'
        · exact ih x hx2 hpx (fun y hy hpy => huniq y (List.mem_cons_of_mem a hy) hpy)

/-- Core bridging lemma of the streaming phase: under the well-keyed-table
hypotheses, looking a remote row's key up in its own chunk's batch-lookup
index is the same as the perfect whole-table lookup. -/
theorem chunk_lookup (localTable : List Row) (pk : List String)
    (remoteAll : List Row) (c : List Row)
    (hwkR : WellKeyed pk remoteAll) (hwkL : WellKeyed pk localTable)
    (hinj : KeysInjective pk remoteAll localTable)
    (hnodupL : (localTable.map (fun l => buildPrimaryKeyValue l pk)).Nodup)
    (hsub : ∀ x ∈ c, x ∈ remoteAll) {r : Row} (hr : r ∈ c) :
    alistGet? ((batchLookupByPK localTable pk c).foldl
        (fun m row => alistSet m (buildPrimaryKeyValue row pk) row) [])
      (buildPrimaryKeyValue r pk) =
    findLocal localTable pk (buildPrimaryKeyValue r pk) := by
  rw [alistGet?_foldIndex]
  unfold findLocal
  rcases hfind : localTable.find?
      (fun l => buildPrimaryKeyValue l pk == buildPrimaryKeyValue r pk) with _ | l0
  · have hnone : ∀ l ∈ localTable,
        ¬(buildPrimaryKeyValue l pk == buildPrimaryKeyValue r pk) = true := by
      intro l hl
      exact fun hp => by
        have := List.find?_eq_none.mp hfind l hl
        exact this hp
    have : (batchLookupByPK localTable pk c).reverse.find?
        (fun row => buildPrimaryKeyValue row pk == buildPrimaryKeyValue r pk) = none := by
      apply List.find?_eq_none.mpr
      intro l hl
      have hlL : l ∈ localTable :=
        ((mem_batchLookupByPK localTable pk c l).mp (List.mem_reverse.mp hl)).1
      exact hnone l hlL
    rw [this]
    rfl
  · have hl0 := List.mem_of_find?_eq_some hfind
    have hl0p := List.find?_some hfind
    have hl0k : buildPrimaryKeyValue l0 pk = buildPrimaryKeyValue r pk :=
      eq_of_beq (by simpa using hl0p)
    have hl0M : l0 ∈ batchLookupByPK localTable pk c := by
      apply (mem_batchLookupByPK localTable pk c l0).mpr
      refine ⟨hl0, r, hr, ?_⟩
      exact (sqlMatch_iff_key pk remoteAll localTable hwkR hwkL hinj
        (hsub r hr) hl0).mpr hl0k
    have huniq : ∀ y ∈ (batchLookupByPK localTable pk c).reverse,
        (buildPrimaryKeyValue y pk == buildPrimaryKeyValue r pk) = true → y = l0 := by
      intro y hy hp
      have hyL : y ∈ localTable :=
        ((mem_batchLookupByPK localTable pk c y).mp (List.mem_reverse.mp hy)).1
      have hyk : buildPrimaryKeyValue y pk = buildPrimaryKeyValue r pk := eq_of_beq hp
      exact List.inj_on_of_nodup_map hnodupL hyL hl0 (by rw [hyk, hl0k])
    rw [find?_unique _ ((batchLookupByPK localTable pk c).reverse) l0
      (List.mem_reverse.mpr hl0M) (by simp [hl0k]) huniq]

/-- Congruence of left folds whose step functions agree on the list's
elements. -/
theorem foldl_congr_mem {α β : Type} (f g : β → α → β) :
    ∀ (l : List α) (b : β), (∀ st x, x ∈ l → f st x = g st x) →
      l.foldl f b = l.foldl g b := by
  intro l
  induction l with
  | nil => intro b _; rfl
  | cons a rest ih =>
      intro b h
      rw [List.foldl_cons, List.foldl_cons, h b a (List.mem_cons_self a rest)]
      exact ih (g b a) (fun st x hx => h st x (List.mem_cons_of_mem a hx))

/-- Under the well-keyed hypotheses, one streaming chunk behaves like the
perfect-lookup fold over its rows. -/
theorem processChunk_spec (localTable : List Row) (pk : List String)
    (remoteAll : List Row) (c : List Row)
    (hwkR : WellKeyed pk remoteAll) (hwkL : WellKeyed pk localTable)
    (hinj : KeysInjective pk remoteAll localTable)
    (hnodupL : (localTable.map (fun l => buildPrimaryKeyValue l pk)).Nodup)
    (hsub : ∀ x ∈ c, x ∈ remoteAll) (st : StreamState) :
    processChunk localTable pk st c = c.foldl (processRowSpec localTable pk) st := by
  unfold processChunk
  apply foldl_congr_mem
  intro st1 r hr
  unfold processRemoteRow processRowSpec
  simp only [chunk_lookup localTable pk remoteAll c hwkR hwkL hinj hnodupL hsub hr]

/-- Under the well-keyed hypotheses, the whole chunk phase behaves like the
perfect-lookup fold over the concatenated remote rows. -/
theorem chunksFold_spec (localTable : List Row) (pk : List String)
    (chunks : List (List Row))
    (hwkR : WellKeyed pk chunks.flatten) (hwkL : WellKeyed pk localTable)
    (hinj : KeysInjective pk chunks.flatten localTable)
    (hnodupL : (localTable.map (fun l => buildPrimaryKeyValue l pk)).Nodup)
    (st : StreamState) :
    chunks.foldl (processChunk localTable pk) st =
      chunks.flatten.foldl (processRowSpec localTable pk) st := by
  rw [List.foldl_flatten]
  apply foldl_congr_mem
  intro st1 c hc
  exact processChunk_spec localTable pk chunks.flatten c hwkR hwkL hinj hnodupL
    (fun x hx => List.mem_flatten.mpr ⟨c, hc, hx⟩) st1

/-- Adding an unseen key appends it. -/
theorem setAdd_not_mem {s : List String} {k : String} (h : k ∉ s) :
    setAdd s k = s ++ [k] := by
  unfold setAdd
  rw [if_neg (by simpa [List.contains, List.elem_iff] using h)]

/-- The perfect-lookup step also always records the row's key as seen. -/
theorem processRowSpec_seen (localTable : List Row) (pk : List String)
    (st : StreamState) (r : Row) :
    (processRowSpec localTable pk st r).seen =
      setAdd st.seen (buildPrimaryKeyValue r pk) := by
  unfold processRowSpec
  rcases h : findLocal localTable pk (buildPrimaryKeyValue r pk) with _ | lr
  · simp [h]
  · simp only [h]
    by_cases hre : rowsEqual r lr = true
    · simp [hre]
    · simp [hre]

/-- Branch-level unfolding of the perfect-lookup step. -/
theorem processRowSpec_eq (localTable : List Row) (pk : List String)
    (st : StreamState) (r : Row) :
    processRowSpec localTable pk st r =
      (match findLocal localTable pk (buildPrimaryKeyValue r pk) with
       | none =>
          { st with seen := setAdd st.seen (buildPrimaryKeyValue r pk),
                    remoteRows := if st.remoteRows == 0 then st.remoteRows + 1
                                  else st.remoteRows,
                    toInsert := st.toInsert ++ [r], inserts := st.inserts + 1 }
       | some l =>
          if rowsEqual r l then
            { st with seen := setAdd st.seen (buildPrimaryKeyValue r pk),
                      remoteRows := if st.remoteRows == 0 then st.remoteRows + 1
                                    else st.remoteRows }
          else
            { st with seen := setAdd st.seen (buildPrimaryKeyValue r pk),
                      remoteRows := if st.remoteRows == 0 then st.remoteRows + 1
                                    else st.remoteRows,
                      toUpdate := st.toUpdate ++
                        [{ remote := r, localRow := l,
                           changes := getRowChanges l r }],
                      updates := st.updates + 1 }) := rfl

/-- Invariant of the perfect-lookup fold over the remote rows: given the
already-processed prefix P, the seen set is exactly the keys of P, the insert
list is exactly the P-rows whose key has no local match, the update list is
exactly the changed matched P-rows, and the counters are the lengths. -/
theorem streamSpec_invariant (localTable : List Row) (pk : List String) :
    ∀ (rest P : List Row) (st : StreamState),
      st.seen = P.map (fun r => buildPrimaryKeyValue r pk) →
      st.toInsert = P.filter (fun r =>
        (findLocal localTable pk (buildPrimaryKeyValue r pk)).isNone) →
      st.toUpdate = P.filterMap (updOf localTable pk) →
      st.inserts = (P.filter (fun r =>
        (findLocal localTable pk (buildPrimaryKeyValue r pk)).isNone)).length →
      st.updates = (P.filterMap (updOf localTable pk)).length →
      ((P ++ rest).map (fun r => buildPrimaryKeyValue r pk)).Nodup →
      ((rest.foldl (processRowSpec localTable pk) st).seen =
        (P ++ rest).map (fun r => buildPrimaryKeyValue r pk) ∧
       (rest.foldl (processRowSpec localTable pk) st).toInsert =
        (P ++ rest).filter (fun r =>
          (findLocal localTable pk (buildPrimaryKeyValue r pk)).isNone) ∧
       (rest.foldl (processRowSpec localTable pk) st).toUpdate =
        (P ++ rest).filterMap (updOf localTable pk) ∧
       (rest.foldl (processRowSpec localTable pk) st).inserts =
        ((P ++ rest).filter (fun r =>
          (findLocal localTable pk (buildPrimaryKeyValue r pk)).isNone)).length ∧
       (rest.foldl (processRowSpec localTable pk) st).updates =
        ((P ++ rest).filterMap (updOf localTable pk)).length) := by
  intro rest
  induction rest with
  | nil =>
      intro P st h1 h2 h3 h4 h5 _
      simpa using ⟨h1, h2, h3, h4, h5⟩
  | cons r rest' ih =>
      intro P st h1 h2 h3 h4 h5 hnodup
      rw [List.foldl_cons]
      have happ : (P ++ [r]) ++ rest' = P ++ r :: rest' := by simp
      have hnodup2 : (((P ++ [r]) ++ rest').map
          (fun r => buildPrimaryKeyValue r pk)).Nodup := by
        rw [happ]; exact hnodup
      have hnotin : buildPrimaryKeyValue r pk ∉
          P.map (fun r => buildPrimaryKeyValue r pk) := by
        intro hmem
        have hsplit : ((P ++ r :: rest').map
            (fun r => buildPrimaryKeyValue r pk)) =
          P.map (fun r => buildPrimaryKeyValue r pk) ++
            (buildPrimaryKeyValue r pk :: rest'.map (fun r => buildPrimaryKeyValue r pk)) := by
          simp
        rw [hsplit] at hnodup
        exact (List.nodup_append.mp hnodup).2.2 hmem (List.mem_cons_self _ _)
      have hseen1 : (processRowSpec localTable pk st r).seen =
          (P ++ [r]).map (fun r => buildPrimaryKeyValue r pk) := by
        rw [processRowSpec_seen, h1, setAdd_not_mem hnotin]
        simp
      rcases hfl : findLocal localTable pk (buildPrimaryKeyValue r pk) with _ | l
      · have hp : (findLocal localTable pk (buildPrimaryKeyValue r pk)).isNone = true := by
          rw [hfl]; rfl
        have hupd : updOf localTable pk r = none := by
          unfold updOf; rw [hfl]
        have hcomp : (processRowSpec localTable pk st r).toInsert = st.toInsert ++ [r] ∧
            (processRowSpec localTable pk st r).toUpdate = st.toUpdate ∧
            (processRowSpec localTable pk st r).inserts = st.inserts + 1 ∧
            (processRowSpec localTable pk st r).updates = st.updates := by
          refine ⟨?_, ?_, ?_, ?_⟩ <;> simp [processRowSpec_eq, hfl]
        have := ih (P ++ [r]) (processRowSpec localTable pk st r)
          hseen1
          (by rw [hcomp.1, h2, List.filter_append]; simp [hp])
          (by rw [hcomp.2.1, h3, List.filterMap_append]; simp [hupd])
          (by rw [hcomp.2.2.1, h4, List.filter_append]; simp [hp])
          (by rw [hcomp.2.2.2, h5, List.filterMap_append]; simp [hupd])
          hnodup2
        rw [happ] at this
        exact this
      · by_cases hre : rowsEqual r l = true
        · have hp : (findLocal localTable pk (buildPrimaryKeyValue r pk)).isNone = false := by
            rw [hfl]; rfl
          have hupd : updOf localTable pk r = none := by
            unfold updOf; rw [hfl]; simp [hre]
          have hcomp : (processRowSpec localTable pk st r).toInsert = st.toInsert ∧
              (processRowSpec localTable pk st r).toUpdate = st.toUpdate ∧
              (processRowSpec localTable pk st r).inserts = st.inserts ∧
              (processRowSpec localTable pk st r).updates = st.updates := by
            refine ⟨?_, ?_, ?_, ?_⟩ <;> simp [processRowSpec_eq, hfl, hre]
          have := ih (P ++ [r]) (processRowSpec localTable pk st r)
            hseen1
            (by rw [hcomp.1, h2, List.filter_append]; simp [hp])
            (by rw [hcomp.2.1, h3, List.filterMap_append]; simp [hupd])
            (by rw [hcomp.2.2.1, h4, List.filter_append]; simp [hp])
            (by rw [hcomp.2.2.2, h5, List.filterMap_append]; simp [hupd])
            hnodup2
          rw [happ] at this
          exact this
        · have hp : (findLocal localTable pk (buildPrimaryKeyValue r pk)).isNone = false := by
            rw [hfl]; rfl
          have hre' : rowsEqual r l = false := by simpa using hre
          have hupd : updOf localTable pk r =
              some { remote := r, localRow := l, changes := getRowChanges l r } := by
            unfold updOf; rw [hfl]; simp [hre']
          have hcomp : (processRowSpec localTable pk st r).toInsert = st.toInsert ∧
              (processRowSpec localTable pk st r).toUpdate = st.toUpdate ++
                [{ remote := r, localRow := l, changes := getRowChanges l r }] ∧
              (processRowSpec localTable pk st r).inserts = st.inserts ∧
              (processRowSpec localTable pk st r).updates = st.updates + 1 := by
            refine ⟨?_, ?_, ?_, ?_⟩ <;> simp [processRowSpec_eq, hfl, hre']
          have := ih (P ++ [r]) (processRowSpec localTable pk st r)
            hseen1
            (by rw [hcomp.1, h2, List.filter_append]; simp [hp])
            (by rw [hcomp.2.1, h3, List.filterMap_append]; simp [hupd])
            (by rw [hcomp.2.2.1, h4, List.filter_append]; simp [hp])
            (by rw [hcomp.2.2.2, h5, List.filterMap_append]; simp [hupd])
            hnodup2
          rw [happ] at this
          exact this

/-- Containment in the string-set model is membership. -/
theorem contains_iff_mem_str (s : List String) (k : String) :
    s.contains k = true ↔ k ∈ s := by
  simp [List.contains, List.elem_iff]

/-- The perfect lookup misses exactly when the key occurs in no local row. -/
theorem findLocal_isNone_eq (localTable : List Row) (pk : List String) (k : String) :
    (findLocal localTable pk k).isNone =
      !((localTable.map (fun l => buildPrimaryKeyValue l pk)).contains k) := by
  unfold findLocal
  rcases hf : localTable.find? (fun l => buildPrimaryKeyValue l pk == k) with _ | l
  · have hnot : k ∉ localTable.map (fun l => buildPrimaryKeyValue l pk) := by
      intro hmem
      obtain ⟨l, hl, rfl⟩ := List.mem_map.mp hmem
      exact List.find?_eq_none.mp hf l hl (by simp)
    have hc : (localTable.map (fun l => buildPrimaryKeyValue l pk)).contains k = false := by
      rcases hcc : (localTable.map (fun l => buildPrimaryKeyValue l pk)).contains k
      · rfl
      · exact absurd ((contains_iff_mem_str _ k).mp hcc) hnot
    rw [hc]; rfl
  · have hp := List.find?_some hf
    have hl := List.mem_of_find?_eq_some hf
    have hmem : k ∈ localTable.map (fun l => buildPrimaryKeyValue l pk) :=
      List.mem_map.mpr ⟨l, hl, eq_of_beq (by simpa using hp)⟩
    rw [(contains_iff_mem_str _ k).mpr hmem]; rfl

/-- Characterisation of streamingTableDiff under the well-keyed-table
hypotheses: inserts are exactly the remote rows without a local key match,
updates exactly the changed matched rows, deletes exactly the local rows
whose key occurs in no remote row, with the counters as lengths. -/
theorem streamingTableDiff_spec (tableName : String) (localTable : List Row)
    (pk : List String) (hU hC : Bool) (chunks : List (List Row))
    (rowCount : Option Nat) (chunkSize : Nat) (hcs : 0 < chunkSize)
    (hnodupR : (chunks.flatten.map (fun r => buildPrimaryKeyValue r pk)).Nodup)
    (hnodupL : (localTable.map (fun l => buildPrimaryKeyValue l pk)).Nodup)
    (hwkR : WellKeyed pk chunks.flatten) (hwkL : WellKeyed pk localTable)
    (hinj : KeysInjective pk chunks.flatten localTable) :
    (streamingTableDiff tableName localTable pk hU hC chunks rowCount
        chunkSize).toInsert =
      chunks.flatten.filter (fun r =>
        (findLocal localTable pk (buildPrimaryKeyValue r pk)).isNone) ∧
    (streamingTableDiff tableName localTable pk hU hC chunks rowCount
        chunkSize).toUpdate =
      chunks.flatten.filterMap (updOf localTable pk) ∧
    (streamingTableDiff tableName localTable pk hU hC chunks rowCount
        chunkSize).toDelete =
      localTable.filter (fun l =>
        !((chunks.flatten.map (fun r => buildPrimaryKeyValue r pk)).contains
          (buildPrimaryKeyValue l pk))) ∧
    (streamingTableDiff tableName localTable pk hU hC chunks rowCount
        chunkSize).stats.inserts =
      (chunks.flatten.filter (fun r =>
        (findLocal localTable pk (buildPrimaryKeyValue r pk)).isNone)).length ∧
    (streamingTableDiff tableName localTable pk hU hC chunks rowCount
        chunkSize).stats.updates =
      (chunks.flatten.filterMap (updOf localTable pk)).length ∧
    (streamingTableDiff tableName localTable pk hU hC chunks rowCount
        chunkSize).stats.deletes =
      (streamingTableDiff tableName localTable pk hU hC chunks rowCount
        chunkSize).toDelete.length := by
  have hfold : chunks.foldl (processChunk localTable pk)
      ({ remoteRows := rowCount.getD 0 } : StreamState) =
      chunks.flatten.foldl (processRowSpec localTable pk)
        ({ remoteRows := rowCount.getD 0 } : StreamState) :=
    chunksFold_spec localTable pk chunks hwkR hwkL hinj hnodupL _
  have hinv := streamSpec_invariant localTable pk chunks.flatten []
    ({ remoteRows := rowCount.getD 0 } : StreamState) rfl rfl rfl rfl rfl
    (by simpa using hnodupR)
  simp only [List.nil_append] at hinv
  obtain ⟨hseen, hins, hupds, hinsc, hupdc⟩ := hinv
  refine ⟨?_, ?_, ?_, ?_, ?_, rfl⟩
  · show (chunks.foldl (processChunk localTable pk)
      ({ remoteRows := rowCount.getD 0 } : StreamState)).toInsert = _
    rw [hfold, hins]
  · show (chunks.foldl (processChunk localTable pk)
      ({ remoteRows := rowCount.getD 0 } : StreamState)).toUpdate = _
    rw [hfold, hupds]
  · show (pagedVisit chunkSize localTable).filter (fun localRow =>
      !(chunks.foldl (processChunk localTable pk)
          ({ remoteRows := rowCount.getD 0 } : StreamState)).seen.contains
        (buildPrimaryKeyValue localRow pk)) = _
    rw [pagedVisit_eq chunkSize localTable hcs, hfold, hseen]
  · show (chunks.foldl (processChunk localTable pk)
      ({ remoteRows := rowCount.getD 0 } : StreamState)).inserts = _
    rw [hfold, hinsc]
  · show (chunks.foldl (processChunk localTable pk)
      ({ remoteRows := rowCount.getD 0 } : StreamState)).updates = _
    rw [hfold, hupdc]

/-- Computable characterisation of WellKeyed. -/
theorem WellKeyed_iff (pk : List String) (rows : List Row) :
    WellKeyed pk rows ↔
      (rows.all (fun r => pk.all (fun c =>
        match rowGet r c with
        | some v => !(v == Value.vNull)
        | none => false))) = true := by
  unfold WellKeyed
  rw [List.all_eq_true]
  constructor
  · intro h r hr
    rw [List.all_eq_true]
    intro c hc
    obtain ⟨v, hv, hvn⟩ := h r hr c hc
    simp only [hv]
    simpa using hvn
  · intro h r hr c hc
    have h2 := List.all_eq_true.mp (h r hr) c hc
    rcases hg : rowGet r c with _ | v
    · simp only [hg] at h2
      cases h2
    · simp only [hg] at h2
      exact ⟨v, rfl, by simpa using h2⟩

/-- Computable characterisation of KeysInjective. -/
theorem KeysInjective_iff (pk : List String) (remoteRows localRows : List Row) :
    KeysInjective pk remoteRows localRows ↔
      (remoteRows.all (fun r => localRows.all (fun l =>
        if buildPrimaryKeyValue r pk == buildPrimaryKeyValue l pk then
          pk.all (fun c => rowGet r c == rowGet l c)
        else true))) = true := by
  unfold KeysInjective
  rw [List.all_eq_true]
  constructor
  · intro h r hr
    rw [List.all_eq_true]
    intro l hl
    by_cases hk : (buildPrimaryKeyValue r pk == buildPrimaryKeyValue l pk) = true
    · rw [if_pos hk]
      rw [List.all_eq_true]
      intro c hc
      exact beq_iff_eq.mpr (h r hr l hl (eq_of_beq hk) c hc)
    · rw [if_neg hk]
  · intro h r hr l hl hk c hc
    have h2 := List.all_eq_true.mp (h r hr) l hl
    rw [if_pos (beq_iff_eq.mpr hk)] at h2
    exact beq_iff_eq.mp (List.all_eq_true.mp h2 c hc)

/-! ## Claim C1: the streaming diff partitions the key space -/

/-- C1: for a well-keyed primary-keyed table (defined non-NULL key values,
collision-free and duplicate-free key strings on both sides, positive chunk
size), the streaming diff's toInsert is exactly the remote rows whose key is
absent locally, toDelete exactly the local rows whose key never occurs in
remote, and toUpdate carries only keys present on both sides; the insert,
delete and matched key sets are pairwise disjoint, duplicate-free, and
together cover the union of remote and local keys — no key is counted twice.
On Scenario A (remote ids 1,2,3; local ids 1,2,4; key id; chunkSize 2) this
gives inserts = [id 3], updates = [id 2], deletes = [id 4]. -/
theorem c1_streaming_diff_partitions_keys :
    (∀ (tableName : String) (localTable : List Row) (pk : List String)
        (hU hC : Bool) (chunks : List (List Row)) (rowCount : Option Nat)
        (chunkSize : Nat),
      0 < chunkSize →
      (chunks.flatten.map (fun r => buildPrimaryKeyValue r pk)).Nodup →
      (localTable.map (fun l => buildPrimaryKeyValue l pk)).Nodup →
      WellKeyed pk chunks.flatten →
      WellKeyed pk localTable →
      KeysInjective pk chunks.flatten localTable →
      ((streamingTableDiff tableName localTable pk hU hC chunks rowCount
          chunkSize).toInsert =
        chunks.flatten.filter (fun r =>
          !((localTable.map (fun l => buildPrimaryKeyValue l pk)).contains
            (buildPrimaryKeyValue r pk))) ∧
       (streamingTableDiff tableName localTable pk hU hC chunks rowCount
          chunkSize).toDelete =
        localTable.filter (fun l =>
          !((chunks.flatten.map (fun r => buildPrimaryKeyValue r pk)).contains
            (buildPrimaryKeyValue l pk))) ∧
       (∀ u ∈ (streamingTableDiff tableName localTable pk hU hC chunks rowCount
          chunkSize).toUpdate,
         buildPrimaryKeyValue u.remote pk ∈
            chunks.flatten.map (fun r => buildPrimaryKeyValue r pk) ∧
         buildPrimaryKeyValue u.remote pk ∈
            localTable.map (fun l => buildPrimaryKeyValue l pk) ∧
         u.localRow ∈ localTable ∧
         buildPrimaryKeyValue u.localRow pk = buildPrimaryKeyValue u.remote pk) ∧
       (∀ k,
         (k ∈ chunks.flatten.map (fun r => buildPrimaryKeyValue r pk) ∨
          k ∈ localTable.map (fun l => buildPrimaryKeyValue l pk)) ↔
         (k ∈ (streamingTableDiff tableName localTable pk hU hC chunks rowCount
            chunkSize).toInsert.map (fun r => buildPrimaryKeyValue r pk) ∨
          k ∈ (streamingTableDiff tableName localTable pk hU hC chunks rowCount
            chunkSize).toDelete.map (fun l => buildPrimaryKeyValue l pk) ∨
          (k ∈ chunks.flatten.map (fun r => buildPrimaryKeyValue r pk) ∧
           k ∈ localTable.map (fun l => buildPrimaryKeyValue l pk)))) ∧
       ((streamingTableDiff tableName localTable pk hU hC chunks rowCount
          chunkSize).toInsert.map (fun r => buildPrimaryKeyValue r pk)).Nodup ∧
       ((streamingTableDiff tableName localTable pk hU hC chunks rowCount
          chunkSize).toDelete.map (fun l => buildPrimaryKeyValue l pk)).Nodup ∧
       (∀ k, k ∈ (streamingTableDiff tableName localTable pk hU hC chunks rowCount
            chunkSize).toInsert.map (fun r => buildPrimaryKeyValue r pk) →
         k ∉ localTable.map (fun l => buildPrimaryKeyValue l pk)) ∧
       (∀ k, k ∈ (streamingTableDiff tableName localTable pk hU hC chunks rowCount
            chunkSize).toDelete.map (fun l => buildPrimaryKeyValue l pk) →
         k ∉ chunks.flatten.map (fun r => buildPrimaryKeyValue r pk)))) ∧
    ((streamingTableDiff "users"
        [[("id", Value.vInt 1), ("name", Value.vStr "a")],
         [("id", Value.vInt 2), ("name", Value.vStr "b")],
         [("id", Value.vInt 4), ("name", Value.vStr "d")]]
        ["id"] false false
        [[[("id", Value.vInt 1), ("name", Value.vStr "a")],
          [("id", Value.vInt 2), ("name", Value.vStr "b2")]],
         [[("id", Value.vInt 3), ("name", Value.vStr "c")]]]
        (some 3) 2).toInsert = [[("id", Value.vInt 3), ("name", Value.vStr "c")]] ∧
     (streamingTableDiff "users"
        [[("id", Value.vInt 1), ("name", Value.vStr "a")],
         [("id", Value.vInt 2), ("name", Value.vStr "b")],
         [("id", Value.vInt 4), ("name", Value.vStr "d")]]
        ["id"] false false
        [[[("id", Value.vInt 1), ("name", Value.vStr "a")],
          [("id", Value.vInt 2), ("name", Value.vStr "b2")]],
         [[("id", Value.vInt 3), ("name", Value.vStr "c")]]]
        (some 3) 2).toUpdate.map (fun u => u.remote) =
       [[("id", Value.vInt 2), ("name", Value.vStr "b2")]] ∧
     (streamingTableDiff "users"
        [[("id", Value.vInt 1), ("name", Value.vStr "a")],
         [("id", Value.vInt 2), ("name", Value.vStr "b")],
         [("id", Value.vInt 4), ("name", Value.vStr "d")]]
        ["id"] false false
        [[[("id", Value.vInt 1), ("name", Value.vStr "a")],
          [("id", Value.vInt 2), ("name", Value.vStr "b2")]],
         [[("id", Value.vInt 3), ("name", Value.vStr "c")]]]
        (some 3) 2).toDelete = [[("id", Value.vInt 4), ("name", Value.vStr "d")]] ∧
     (streamingTableDiff "users"
        [[("id", Value.vInt 1), ("name", Value.vStr "a")],
         [("id", Value.vInt 2), ("name", Value.vStr "b")],
         [("id", Value.vInt 4), ("name", Value.vStr "d")]]
        ["id"] false false
        [[[("id", Value.vInt 1), ("name", Value.vStr "a")],
          [("id", Value.vInt 2), ("name", Value.vStr "b2")]],
         [[("id", Value.vInt 3), ("name", Value.vStr "c")]]]
        (some 3) 2).stats.inserts = 1 ∧
     (streamingTableDiff "users"
        [[("id", Value.vInt 1), ("name", Value.vStr "a")],
         [("id", Value.vInt 2), ("name", Value.vStr "b")],
         [("id", Value.vInt 4), ("name", Value.vStr "d")]]
        ["id"] false false
        [[[("id", Value.vInt 1), ("name", Value.vStr "a")],
          [("id", Value.vInt 2), ("name", Value.vStr "b2")]],
         [[("id", Value.vInt 3), ("name", Value.vStr "c")]]]
        (some 3) 2).stats.updates = 1 ∧
     (streamingTableDiff "users"
        [[("id", Value.vInt 1), ("name", Value.vStr "a")],
         [("id", Value.vInt 2), ("name", Value.vStr "b")],
         [("id", Value.vInt 4), ("name", Value.vStr "d")]]
        ["id"] false false
        [[[("id", Value.vInt 1), ("name", Value.vStr "a")],
          [("id", Value.vInt 2), ("name", Value.vStr "b2")]],
         [[("id", Value.vInt 3), ("name", Value.vStr "c")]]]
        (some 3) 2).stats.deletes = 1) := by
  constructor
  · intro tableName localTable pk hU hC chunks rowCount chunkSize hcs hnodupR hnodupL
      hwkR hwkL hinj
    obtain ⟨hIns, hUpd, hDel, _, _, _⟩ := streamingTableDiff_spec tableName localTable
      pk hU hC chunks rowCount chunkSize hcs hnodupR hnodupL hwkR hwkL hinj
    have hInsEq : (streamingTableDiff tableName localTable pk hU hC chunks rowCount
        chunkSize).toInsert =
        chunks.flatten.filter (fun r =>
          !((localTable.map (fun l => buildPrimaryKeyValue l pk)).contains
            (buildPrimaryKeyValue r pk))) := by
      rw [hIns]
      apply List.filter_congr
      intro r _
      exact findLocal_isNone_eq localTable pk (buildPrimaryKeyValue r pk)
    have hImem : ∀ k, k ∈ (streamingTableDiff tableName localTable pk hU hC chunks
        rowCount chunkSize).toInsert.map (fun r => buildPrimaryKeyValue r pk) ↔
        (k ∈ chunks.flatten.map (fun r => buildPrimaryKeyValue r pk) ∧
         k ∉ localTable.map (fun l => buildPrimaryKeyValue l pk)) := by
      intro k
      rw [hInsEq]
      constructor
      · intro hmem
        obtain ⟨r, hrf, rfl⟩ := List.mem_map.mp hmem
        obtain ⟨hrR, hpr⟩ := List.mem_filter.mp hrf
        refine ⟨List.mem_map.mpr ⟨r, hrR, rfl⟩, ?_⟩
        intro hLK
        rw [(contains_iff_mem_str _ _).mpr hLK] at hpr
        simp at hpr
      · rintro ⟨hRK, hLK⟩
        obtain ⟨r, hrR, rfl⟩ := List.mem_map.mp hRK
        refine List.mem_map.mpr ⟨r, List.mem_filter.mpr ⟨hrR, ?_⟩, rfl⟩
        rcases hcc : (localTable.map (fun l => buildPrimaryKeyValue l pk)).contains
            (buildPrimaryKeyValue r pk)
        · rfl
        · exact absurd ((contains_iff_mem_str _ _).mp hcc) hLK
    have hDmem : ∀ k, k ∈ (streamingTableDiff tableName localTable pk hU hC chunks
        rowCount chunkSize).toDelete.map (fun l => buildPrimaryKeyValue l pk) ↔
        (k ∈ localTable.map (fun l => buildPrimaryKeyValue l pk) ∧
         k ∉ chunks.flatten.map (fun r => buildPrimaryKeyValue r pk)) := by
      intro k
      rw [hDel]
      constructor
      · intro hmem
        obtain ⟨l, hlf, rfl⟩ := List.mem_map.mp hmem
        obtain ⟨hlL, hpl⟩ := List.mem_filter.mp hlf
        refine ⟨List.mem_map.mpr ⟨l, hlL, rfl⟩, ?_⟩
        intro hRK
        rw [(contains_iff_mem_str _ _).mpr hRK] at hpl
        simp at hpl
      · rintro ⟨hLK, hRK⟩
        obtain ⟨l, hlL, rfl⟩ := List.mem_map.mp hLK
        refine List.mem_map.mpr ⟨l, List.mem_filter.mpr ⟨hlL, ?_⟩, rfl⟩
        rcases hcc : (chunks.flatten.map (fun r => buildPrimaryKeyValue r pk)).contains
            (buildPrimaryKeyValue l pk)
        · rfl
        · exact absurd ((contains_iff_mem_str _ _).mp hcc) hRK
    refine ⟨hInsEq, hDel, ?_, ?_, ?_, ?_, ?_, ?_⟩
    · intro u hu
      rw [hUpd] at hu
      obtain ⟨r, hrR, hur⟩ := List.mem_filterMap.mp hu
      unfold updOf at hur
      rcases hfl : findLocal localTable pk (buildPrimaryKeyValue r pk) with _ | l
      · simp only [hfl] at hur
        exact Option.noConfusion hur
      · simp only [hfl] at hur
        by_cases hre : rowsEqual r l = true
        · simp only [hre, if_true] at hur
          exact Option.noConfusion hur
        · have hre' : rowsEqual r l = false := by simpa using hre
          simp only [hre', Bool.false_eq_true, if_false] at hur
          obtain rfl : ({ remote := r, localRow := l, changes := getRowChanges l r } : UpdateEntry) = u :=
            Option.some.inj hur
          have hlL : l ∈ localTable := by
            unfold findLocal at hfl
            exact List.mem_of_find?_eq_some hfl
          have hlk : buildPrimaryKeyValue l pk = buildPrimaryKeyValue r pk := by
            unfold findLocal at hfl
            exact eq_of_beq (by simpa using List.find?_some hfl)
          exact ⟨List.mem_map.mpr ⟨r, hrR, rfl⟩,
            List.mem_map.mpr ⟨l, hlL, hlk⟩, hlL, hlk⟩
    · intro k
      constructor
      · intro hk
        by_cases hR : k ∈ chunks.flatten.map (fun r => buildPrimaryKeyValue r pk) <;>
          by_cases hL : k ∈ localTable.map (fun l => buildPrimaryKeyValue l pk)
        · exact Or.inr (Or.inr ⟨hR, hL⟩)
        · exact Or.inl ((hImem k).mpr ⟨hR, hL⟩)
        · exact Or.inr (Or.inl ((hDmem k).mpr ⟨hL, hR⟩))
        · rcases hk with hk | hk
          · exact absurd hk hR
          · exact absurd hk hL
      · rintro (hk | hk | hk)
        · exact Or.inl ((hImem k).mp hk).1
        · exact Or.inr ((hDmem k).mp hk).1
        · exact Or.inl hk.1
    · rw [hInsEq]
      exact hnodupR.sublist (List.Sublist.map _ (List.filter_sublist _))
    · rw [hDel]
      exact hnodupL.sublist (List.Sublist.map _ (List.filter_sublist _))
    · intro k hk
      exact ((hImem k).mp hk).2
    · intro k hk
      exact ((hDmem k).mp hk).2
  · refine ⟨by decide, by decide, by decide, by decide, by decide, by decide⟩

/-- C1 witness: the general partition statement instantiated at the Scenario
A tables, with every hypothesis checked by computation. -/
theorem c1_streaming_diff_witness :
    (streamingTableDiff "users"
        [[("id", Value.vInt 1), ("name", Value.vStr "a")],
         [("id", Value.vInt 2), ("name", Value.vStr "b")],
         [("id", Value.vInt 4), ("name", Value.vStr "d")]]
        ["id"] false false
        [[[("id", Value.vInt 1), ("name", Value.vStr "a")],
          [("id", Value.vInt 2), ("name", Value.vStr "b2")]],
         [[("id", Value.vInt 3), ("name", Value.vStr "c")]]]
        (some 3) 2).toInsert =
      (([[[("id", Value.vInt 1), ("name", Value.vStr "a")],
          [("id", Value.vInt 2), ("name", Value.vStr "b2")]],
         [[("id", Value.vInt 3), ("name", Value.vStr "c")]]] :
          List (List Row)).flatten).filter
        (fun r =>
          !((([[("id", Value.vInt 1), ("name", Value.vStr "a")],
              [("id", Value.vInt 2), ("name", Value.vStr "b")],
              [("id", Value.vInt 4), ("name", Value.vStr "d")]] : List Row).map
              (fun l => buildPrimaryKeyValue l ["id"])).contains
            (buildPrimaryKeyValue r ["id"]))) :=
  ((c1_streaming_diff_partitions_keys.1 "users"
      [[("id", Value.vInt 1), ("name", Value.vStr "a")],
       [("id", Value.vInt 2), ("name", Value.vStr "b")],
       [("id", Value.vInt 4), ("name", Value.vStr "d")]]
      ["id"] false false
      [[[("id", Value.vInt 1), ("name", Value.vStr "a")],
        [("id", Value.vInt 2), ("name", Value.vStr "b2")]],
       [[("id", Value.vInt 3), ("name", Value.vStr "c")]]]
      (some 3) 2 (by norm_num) (by decide) (by decide)
      ((WellKeyed_iff _ _).mpr (by decide))
      ((WellKeyed_iff _ _).mpr (by decide))
      ((KeysInjective_iff _ _ _).mpr (by decide))).1)

end Driftwarden
